import Mathlib

/-!
# Formal model of the prism_cache read-path engine

A shallow embedding in Lean 4 of the core of the `prism_cache` repository:

* `src/redis_protocol.rs` — the RESP frame codec (`RedisFrame::to_bytes`,
  `RedisFrame::parse` and its helpers);
* `src/server.rs` — the per-connection read loop (`Server::process_client`);
* `src/commands.rs` — the command dispatcher (`handle_command`, `handle_set`,
  `handle_get`, `handle_hget`, `map_error`);
* `src/storage/mod.rs` — the read-through storage service
  (`StorageService::fetch_record`, `fetch_from_database`);
* `src/storage/cache.rs` — the hand-rolled TTL + capacity cache
  (`Cache::get_fields`, `Cache::set_fields`, `Cache::evict_entries`);
* `src/storage/moka_cache.rs` — the Moka-based cache adapter
  (`MokaBasedCache::get_fields`).

Modelling conventions:

* Rust byte slices and `String`s that flow through the codec are modelled as
  `List Nat` (one `Nat` per byte); `String::push(b as char)` and
  `from_utf8_lossy` are modelled as the identity on bytes.
* `Instant` timestamps are explicit `Nat` parameters (`now`); `i64` is `Int`.
* `HashMap`s are association lists; the two-level
  `HashMap<String, HashMap<String, _>>` of `cache.rs` is flattened to keys
  `(entity, id)`, which is behaviourally equivalent for get/set/evict.
* Async calls are ordinary calls; socket I/O becomes explicit chunk lists.
* Error messages are Lean `String`s mirroring the Rust `format!` strings
  (only their text matters, for the server's substring checks).
-/

namespace PrismCache

/-! ## Decimal rendering of numbers (Rust `to_string`) -/

/-- ASCII decimal digits of a natural number, most significant first
(fuel-based so that it computes by `rfl`; `natDigits_eq` below recovers the
natural recursion). -/
def natDigitsGo : Nat → Nat → List Nat
  | 0, _ => []
  | _fuel + 1, m => if m < 10 then [48 + m] else natDigitsGo _fuel (m / 10) ++ [48 + m % 10]

/-- ASCII bytes of `n.to_string()` for `n : Nat`. -/
def natDigits (n : Nat) : List Nat := natDigitsGo (n + 1) n

theorem natDigitsGo_congr (f₁ f₂ m : Nat) (h₁ : m < f₁) (h₂ : m < f₂) :
    natDigitsGo f₁ m = natDigitsGo f₂ m := by
  induction f₁ using Nat.strong_induction_on generalizing f₂ m with
  | _ f₁ ih =>
    match f₁, f₂ with
    | g₁ + 1, g₂ + 1 =>
      unfold natDigitsGo
      by_cases hm : m < 10
      · simp [hm]
      · simp only [hm, if_false]
        have hd : m / 10 < m := Nat.div_lt_self (by omega) (by omega)
        rw [ih g₁ (by omega) g₂ (m / 10) (by omega) (by omega)]

/-- The natural recursion for `natDigits`. -/
theorem natDigits_eq (n : Nat) :
    natDigits n = if n < 10 then [48 + n] else natDigits (n / 10) ++ [48 + n % 10] := by
  unfold natDigits
  by_cases h : n < 10
  · simp [natDigitsGo, h]
  · conv_lhs => rw [show natDigitsGo (n + 1) n = natDigitsGo n (n / 10) ++ [48 + n % 10] by
      simp [natDigitsGo, h]]
    have hd : n / 10 < n := Nat.div_lt_self (by omega) (by omega)
    rw [natDigitsGo_congr n (n / 10 + 1) (n / 10) (by omega) (by omega)]
    simp [h]

theorem natDigits_ne_nil (n : Nat) : natDigits n ≠ [] := by
  rw [natDigits_eq]
  by_cases h : n < 10 <;> simp [h]

theorem natDigits_mem_digit (n : Nat) : ∀ b ∈ natDigits n, 48 ≤ b ∧ b ≤ 57 := by
  induction n using Nat.strong_induction_on with
  | _ n ih =>
    rw [natDigits_eq]
    by_cases h : n < 10
    · simp only [h, if_true, List.mem_singleton]
      rintro b rfl; omega
    · simp only [h, if_false, List.mem_append, List.mem_singleton]
      rintro b (hb | rfl)
      · exact ih (n / 10) (Nat.div_lt_self (by omega) (by omega)) b hb
      · have := Nat.mod_lt n (y := 10) (by omega); omega

/-- ASCII bytes of `i.to_string()` for `i : i64` (modelled as `Int`). -/
def intDigits (i : Int) : List Nat :=
  if i < 0 then 45 :: natDigits i.natAbs else natDigits i.natAbs

/-! ## RESP frames (`RedisFrame` in `redis_protocol.rs`) -/

/-- The `RedisFrame` enum.  String payloads are byte lists. -/
inductive RedisFrame where
  | SimpleString (s : List Nat)
  | Error (s : List Nat)
  | Integer (i : Int)
  | BulkString (s : List Nat)
  | Array (elems : List RedisFrame)
  | Null

mutual

/-- `RedisFrame::to_bytes`. -/
def RedisFrame.toBytes : RedisFrame → List Nat
  | .SimpleString s => 43 :: s ++ [13, 10]
  | .Error s => 45 :: s ++ [13, 10]
  | .Integer i => 58 :: intDigits i ++ [13, 10]
  | .BulkString s => 36 :: natDigits s.length ++ [13, 10] ++ s ++ [13, 10]
  | .Array frames => 42 :: natDigits frames.length ++ [13, 10] ++ RedisFrame.toBytesList frames
  | .Null => [36, 45, 49, 13, 10]

/-- Concatenated encodings of a list of frames (the `for frame in frames`
loop inside `to_bytes` for arrays). -/
def RedisFrame.toBytesList : List RedisFrame → List Nat
  | [] => []
  | f :: fs => f.toBytes ++ RedisFrame.toBytesList fs

end

/-- The `RedisError` enum (payloads are the formatted message strings). -/
inductive RedisError where
  | Protocol (msg : String)
  | UnknownCommand (msg : String)
  | WrongArity (msg : String)
  | NotFound (msg : String)
  | Internal (msg : String)
  deriving DecidableEq, Repr

/-- The `thiserror` `Display` rendering of a `RedisError`
(`format!("{}", e)`). -/
def RedisError.display : RedisError → String
  | .Protocol m => "Protocol error: " ++ m
  | .UnknownCommand m => "Unknown command: " ++ m
  | .WrongArity m => "Wrong number of arguments for '" ++ m ++ "' command"
  | .NotFound m => "Not found: " ++ m
  | .Internal m => "Internal error: " ++ m

/-! ## The RESP decoder (`RedisFrame::parse` and helpers)

The Rust decoder walks a byte slice with an explicit cursor `pos`; the model
consumes from the front of the list, which is the same traversal.  Each
helper receives the slice starting at the frame's type byte, exactly as the
Rust helpers do. -/

/-- `(data[start_idx] as char).is_whitespace()` for a single byte interpreted
as a Unicode code point: ASCII whitespace plus U+0085 and U+00A0. -/
def isWsByte (b : Nat) : Bool :=
  b = 32 || b = 9 || b = 10 || b = 11 || b = 12 || b = 13 || b = 133 || b = 160

/-- Is `b` one of the four non-array RESP type bytes `+ - : $`? -/
def isMarker (b : Nat) : Bool :=
  b = 43 || b = 45 || b = 58 || b = 36

/-- ASCII digit test (`u8::is_ascii_digit`). -/
def isDigit (b : Nat) : Bool := 48 ≤ b && b ≤ 57

/-- The `while pos < data.len() && data[pos] != b'\r'` digit-accumulation
loop shared by the array-length, integer and bulk-length parsers.  Returns
the accumulated value and the unconsumed remainder (which starts with `\r`
when one was found).  `ctx` names the loop for the error message. -/
def readNum (ctx : String) : List Nat → Nat → Except RedisError (Nat × List Nat)
  | [], acc => .ok (acc, [])
  | b :: rest, acc =>
    if b = 13 then .ok (acc, b :: rest)
    else if isDigit b then readNum ctx rest (acc * 10 + (b - 48))
    else .error (.Protocol s!"Expected digit in {ctx}, got: {Char.ofNat b}")

/-- `RedisFrame::parse_simple_string`. -/
def parseSimpleString (data : List Nat) : Except RedisError RedisFrame :=
  let body := data.drop 1
  let s := body.takeWhile fun b => b ≠ 13
  match body.drop s.length with
  | 13 :: 10 :: _ => .ok (.SimpleString s)
  | _ => .error (.Protocol "Expected CRLF after simple string")

/-- `RedisFrame::parse_error`. -/
def parseErrorFrame (data : List Nat) : Except RedisError RedisFrame :=
  let body := data.drop 1
  let s := body.takeWhile fun b => b ≠ 13
  match body.drop s.length with
  | 13 :: 10 :: _ => .ok (.Error s)
  | _ => .error (.Protocol "Expected CRLF after error")

/-- `RedisFrame::parse_integer`. -/
def parseInteger (data : List Nat) : Except RedisError RedisFrame :=
  let body := data.drop 1
  let negative := body.headD 0 = 45
  let body := if negative then body.drop 1 else body
  match readNum "integer" body 0 with
  | .error e => .error e
  | .ok (value, rest) =>
    match rest with
    | 13 :: 10 :: _ =>
      .ok (.Integer (if negative then -(value : Int) else (value : Int)))
    | _ => .error (.Protocol "Expected CRLF after integer")

/-- `RedisFrame::parse_bulk_string`. -/
def parseBulkString (data : List Nat) : Except RedisError RedisFrame :=
  let body := data.drop 1
  let negative := body.headD 0 = 45
  let body := if negative then body.drop 1 else body
  match readNum "bulk string length" body 0 with
  | .error e => .error e
  | .ok (length, rest) =>
    match rest with
    | 13 :: 10 :: after =>
      if negative then .ok .Null
      else if after.length < length + 2 then
        .error (.Protocol
          s!"Bulk string too short: expected {length} bytes plus CRLF, got {after.length} bytes")
      else
        let s := after.take length
        if after.getD length 0 = 13 ∧ after.getD (length + 1) 0 = 10 then
          .ok (.BulkString s)
        else
          .error (.Protocol
            s!"Expected CRLF after bulk string, got: {after.getD length 0} {after.getD (length + 1) 0}")
    | _ => .error (.Protocol "Expected CRLF after bulk string length")

/-- The element-size scan used by `parse_array` for nested-array elements:
starting just after the element's `*`, advance until a type byte is met at
depth 0 (every `*` increments the depth, any of `+ - : $` at positive depth
decrements it).  Returns the number of bytes advanced. -/
def arrayScan : List Nat → Int → Nat
  | [], _ => 0
  | b :: rest, depth =>
    if b = 42 then 1 + arrayScan rest (depth + 1)
    else if depth > 0 ∧ isMarker b then 1 + arrayScan rest (depth - 1)
    else if depth = 0 ∧ (b = 42 ∨ isMarker b) then 0
    else 1 + arrayScan rest depth

/-- The `element_size` computation in `parse_array`: the byte size of a just
parsed element, recomputed from the element's value — and, for array
elements, by the `arrayScan` heuristic over `suffix` (the bytes from the
element's type byte on).  `remaining` is how many elements (including this
one) the enclosing loop still expects, so `remaining > 1` is `i < length - 1`. -/
def elemSize (fr : RedisFrame) (suffix : List Nat) (remaining : Nat) :
    Except RedisError Nat :=
  match fr with
  | .SimpleString s => .ok (3 + s.length)
  | .Error s => .ok (3 + s.length)
  | .Integer i => .ok (3 + (intDigits i).length)
  | .BulkString s => .ok (5 + s.length + (natDigits s.length).length)
  | .Array _ =>
    let c := arrayScan (suffix.drop 1) 0
    if 1 + c ≥ suffix.length ∧ remaining > 1 then
      .error (.Protocol "Unexpected end of data while parsing array")
    else .ok (1 + c)
  | .Null => .ok 5

theorem elemSize_pos {fr suffix remaining k} (h : elemSize fr suffix remaining = .ok k) :
    1 ≤ k := by
  cases fr <;> simp only [elemSize] at h
  case Array =>
    split at h
    · exact absurd h (by simp)
    · simp only [Except.ok.injEq] at h; omega
  all_goals simp only [Except.ok.injEq] at h <;> omega

theorem readNum_rest_le {ctx l acc n rest} (h : readNum ctx l acc = .ok (n, rest)) :
    rest.length ≤ l.length := by
  induction l generalizing acc with
  | nil => simp only [readNum, Except.ok.injEq, Prod.mk.injEq] at h; simp [← h.2]
  | cons b t ih =>
    simp only [readNum] at h
    split at h
    · simp only [Except.ok.injEq, Prod.mk.injEq] at h
      simp [← h.2]
    · split at h
      · have := ih h; simp; omega
      · exact absurd h (by simp)

mutual

/-- One element of the `match data[pos]` dispatch inside `parse_array`
(and the RESP branch of top-level `parse`): parse the frame starting at the
type byte at the head of `data`. -/
def parseVal (data : List Nat) : Except RedisError RedisFrame :=
  match hd : data with
  | [] => .error (.Protocol "Empty data")
  | b :: _ =>
    if b = 42 then parseArray data
    else if b = 43 then parseSimpleString data
    else if b = 45 then parseErrorFrame data
    else if b = 58 then parseInteger data
    else if b = 36 then parseBulkString data
    else .error (.Protocol s!"Unknown element type byte: {Char.ofNat b}")
termination_by 3 * data.length + 2
decreasing_by subst hd; simp_wf; try omega

/-- `RedisFrame::parse_array`. -/
def parseArray (data : List Nat) : Except RedisError RedisFrame :=
  match hr : readNum "array length" (data.drop 1) 0 with
  | .error e => .error e
  | .ok (length, rest) =>
    match hm : rest with
    | 13 :: 10 :: elemsData =>
      match parseElems elemsData length 0 with
      | .error e => .error e
      | .ok elems => .ok (.Array elems)
    | _ => .error (.Protocol "Expected CRLF after array length")
termination_by 3 * data.length + 1
decreasing_by
  simp_wf
  have h1 := readNum_rest_le hr
  simp only [List.length_cons, List.length_drop] at h1
  omega

/-- The `for i in 0..length` element loop of `parse_array`, acting on the
bytes after the array header.  `remaining` counts the elements still
expected and `idx` is the Rust loop counter `i`. -/
def parseElems (suffix : List Nat) (remaining idx : Nat) :
    Except RedisError (List RedisFrame) :=
  match remaining with
  | 0 => .ok []
  | r + 1 =>
    match suffix with
    | [] => .error (.Protocol s!"Unexpected end of data while parsing array element {idx}")
    | b :: rest =>
      match parseVal (b :: rest) with
      | .error e => .error e
      | .ok el =>
        match hk : elemSize el (b :: rest) (r + 1) with
        | .error e => .error e
        | .ok size =>
          match parseElems ((b :: rest).drop size) r (idx + 1) with
          | .error e => .error e
          | .ok els => .ok (el :: els)
termination_by 3 * suffix.length + 3
decreasing_by
  all_goals simp_wf
  exact elemSize_pos hk

end

/-- `RedisFrame::parse_plain_text` (the legacy inline form). -/
def parsePlainText (data : List Nat) : Except RedisError RedisFrame :=
  let cleaned := data.map fun b => if b = 13 ∨ b = 10 then 32 else b
  let parts := (cleaned.splitOnP fun b => isWsByte b).filter fun p => p ≠ []
  match parts with
  | [] => .error (.Protocol "Empty command after cleaning")
  | _ => .ok (.Array (parts.map fun p => .BulkString p))

/-- `RedisFrame::parse`: trim leading whitespace, then either dispatch on a
RESP type byte or fall back to the inline plain-text form. -/
def parse (data : List Nat) : Except RedisError RedisFrame :=
  match data with
  | [] => .error (.Protocol "Empty data")
  | _ :: _ =>
    let trimmed := data.dropWhile fun b => isWsByte b
    match trimmed with
    | [] => .error (.Protocol "Empty data after trimming whitespace")
    | b :: _ =>
      if b ≠ 42 ∧ b ≠ 43 ∧ b ≠ 45 ∧ b ≠ 58 ∧ b ≠ 36 then parsePlainText data
      else parseVal trimmed

/-! ## JSON values (`serde_json::Value`, restricted to what the gateway uses) -/

/-- `serde_json::Value`.  Strings are byte lists, numbers are modelled as
integers (no claim depends on floats). -/
inductive JValue where
  | null
  | bool (b : Bool)
  | num (n : Int)
  | str (s : List Nat)
  | obj (fields : List (List Nat × JValue))

/-- `Value::Null` test (`record[field] != Value::Null`). -/
def JValue.isNull : JValue → Bool
  | .null => true
  | _ => false

/-- `record[field]` — serde_json's `Index<&str>` on `Value`: the member for
the key in an object, `Null` for a missing key or a non-object. -/
def JValue.getField (v : JValue) (f : List Nat) : JValue :=
  match v with
  | .obj fields =>
    match fields.lookup f with
    | some w => w
    | none => .null
  | _ => .null

/-- Hexadecimal digit byte (for the `\u00XX` control-character escape). -/
def hexDigit (n : Nat) : Nat := if n < 10 then 48 + n else 87 + n

/-- serde_json's escaping of one byte inside a JSON string literal. -/
def jsonEscapeByte (b : Nat) : List Nat :=
  if b = 34 then [92, 34]
  else if b = 92 then [92, 92]
  else if b < 32 then [92, 117, 48, 48, hexDigit (b / 16), hexDigit (b % 16)]
  else [b]

mutual

/-- `Value::to_string()`: the canonical JSON text, as bytes.  (serde_json's
default `Map` is a `BTreeMap`, so the real `to_string` emits object keys in
sorted order; the model keeps list order — no claim below depends on the
member order of a serialized object.) -/
def JValue.toJsonBytes : JValue → List Nat
  | .null => [110, 117, 108, 108]
  | .bool true => [116, 114, 117, 101]
  | .bool false => [102, 97, 108, 115, 101]
  | .num n => intDigits n
  | .str s => 34 :: (s.map jsonEscapeByte).join ++ [34]
  | .obj fields => 123 :: JValue.fieldsToJsonBytes fields ++ [125]

/-- Comma-separated `"key":value` members of an object. -/
def JValue.fieldsToJsonBytes : List (List Nat × JValue) → List Nat
  | [] => []
  | [(k, v)] => 34 :: (k.map jsonEscapeByte).join ++ [34, 58] ++ v.toJsonBytes
  | (k, v) :: rest =>
    34 :: (k.map jsonEscapeByte).join ++ [34, 58] ++ v.toJsonBytes ++
      44 :: JValue.fieldsToJsonBytes rest

end

/-! ## The storage service (`src/storage/mod.rs`)

`StorageService::fetch_record` is written against the `CacheAdapter` trait
declared in the same file, whose `get_record` signals a miss with
`StorageError::RecordNotFoundInCache` (the only error kind `fetch_record`
catches) and whose `set_record` stores a whole record.  The cache is
modelled as an association list keyed by `(entity, id)`; the database
adapter (`DatabaseType::fetch_record`) is an explicit function parameter.
Each operation also reports how many database-adapter calls it made. -/

/-- The `StorageError` enum. -/
inductive StorageError where
  | DatabaseError (msg : String)
  | RecordNotInDatabase (msg : String)
  | CacheError (msg : String)
  | RecordNotFoundInCache (msg : String)
  | EntityNotFound (msg : String)
  | FieldNotFound (msg : String)
  | ConfigError (msg : String)
  deriving DecidableEq, Repr

/-- The database side: `fetch_record(entity, id) → Vec<Value>` or an error. -/
abbrev DbAdapter := List Nat → List Nat → Except StorageError (List JValue)

/-- The cache state seen by `StorageService`: `(entity, id) → record`. -/
abbrev CacheMap := List ((List Nat × List Nat) × JValue)

/-- `CacheAdapter::get_record`: a present key yields its record, an absent
key yields `RecordNotFoundInCache`. -/
def cacheGetRecord (c : CacheMap) (entity id : List Nat) : Except StorageError JValue :=
  match c.lookup (entity, id) with
  | some v => .ok v
  | none => .error (.RecordNotFoundInCache "record not found in cache")

/-- `CacheAdapter::set_record`: insert or overwrite the record for the key. -/
def cacheSetRecord (c : CacheMap) (entity id : List Nat) (v : JValue) : CacheMap :=
  if c.any fun p => p.1 = (entity, id) then
    c.map fun p => if p.1 = (entity, id) then ((entity, id), v) else p
  else c ++ [((entity, id), v)]

/-- The `fields` projection shared by `fetch_record` and
`fetch_from_database`: a fresh object holding the requested fields that are
non-`Null` in `data`, in request order. -/
def projectFields (data : JValue) (fields : List (List Nat)) : JValue :=
  .obj (fields.filterMap fun f =>
    if (data.getField f).isNull then none else some (f, data.getField f))

/-- `StorageService::fetch_from_database`.  Returns the result, the new
cache state and the number of database-adapter calls (always 1 here). -/
def fetchFromDatabase (db : DbAdapter) (c : CacheMap) (entity id : List Nat)
    (fields : List (List Nat)) : Except StorageError JValue × CacheMap × Nat :=
  match db entity id with
  | .ok records =>
    match records with
    | [] => (.error (.RecordNotInDatabase "record not found in database"), c, 1)
    | record :: _ =>
      let result := if fields = [] then record else projectFields record fields
      (.ok result, cacheSetRecord c entity id result, 1)
  | .error e => (.error e, c, 1)

/-- `StorageService::fetch_record`: cache first, database on
`RecordNotFoundInCache`, other cache errors propagate. -/
def fetchRecord (db : DbAdapter) (c : CacheMap) (entity id : List Nat)
    (fields : List (List Nat)) : Except StorageError JValue × CacheMap × Nat :=
  match cacheGetRecord c entity id with
  | .ok data =>
    if fields = [] then (.ok data, c, 0)
    else (.ok (projectFields data fields), c, 0)
  | .error (.RecordNotFoundInCache _) => fetchFromDatabase db c entity id fields
  | .error e => (.error e, c, 0)

/-! ## Command handling (`src/commands.rs`) -/

/-- Bytes of a Lean string (ASCII contents only are used). -/
def strBytes (s : String) : List Nat := s.data.map Char.toNat

/-- A byte list rendered as a Lean string (for error-message payloads). -/
def bytesStr (b : List Nat) : String := String.mk (b.map Char.ofNat)

/-- ASCII upper-casing of one byte (`str::to_uppercase` on ASCII input). -/
def upperByte (b : Nat) : Nat := if 97 ≤ b ∧ b ≤ 122 then b - 32 else b

/-- `key.split_once(':')`: split at the first colon; `none` when there is no
colon, otherwise the part before it and everything after it. -/
def splitColon (k : List Nat) : Option (List Nat × List Nat) :=
  if 58 ∈ k then some (k.takeWhile fun b => b ≠ 58, (k.dropWhile fun b => b ≠ 58).drop 1)
  else none

/-- `map_error` in `commands.rs`. -/
def mapError : StorageError → RedisError
  | .EntityNotFound m => .NotFound m
  | .FieldNotFound m => .NotFound m
  | .RecordNotInDatabase m => .NotFound m
  | .DatabaseError m => .Internal ("Database error: " ++ m)
  | .CacheError m => .Internal ("Cache error: " ++ m)
  | .ConfigError m => .Internal ("Config error: " ++ m)
  | .RecordNotFoundInCache m => .NotFound m

/-- `handle_set`: arity/type checks only — the storage service is ignored
and nothing is written (the function body ends in `just return OK`). -/
def handleSet (args : List RedisFrame) : Except RedisError (List Nat) :=
  if args.length < 2 then .error (.WrongArity "SET")
  else
    match args.headD .Null with
    | .BulkString _ =>
      match (args.drop 1).headD .Null with
      | .BulkString _ => .ok (RedisFrame.toBytes (.SimpleString (strBytes "OK")))
      | _ => .error (.Protocol "Expected bulk string for value")
    | _ => .error (.Protocol "Expected bulk string for key")

/-- `handle_get`.  Returns the reply, the new cache state and the number of
database-adapter calls made. -/
def handleGet (db : DbAdapter) (c : CacheMap) (args : List RedisFrame) :
    Except RedisError (List Nat) × CacheMap × Nat :=
  if args.length ≠ 1 then (.error (.WrongArity "GET"), c, 0)
  else
    match args.headD .Null with
    | .BulkString key =>
      match splitColon key with
      | none => (.error (.Protocol "Expected entity:id format"), c, 0)
      | some (entity, id) =>
        match fetchRecord db c entity id [] with
        | (.ok record, c', n) =>
          (.ok (RedisFrame.toBytes (.BulkString record.toJsonBytes)), c', n)
        | (.error (.EntityNotFound _), c', n) => (.ok (RedisFrame.toBytes .Null), c', n)
        | (.error _, c', n) => (.ok (RedisFrame.toBytes .Null), c', n)
    | _ => (.error (.Protocol "Expected bulk string for key"), c, 0)

/-- The field projection inside `handle_hget`: for each requested field
argument that is a bulk string naming a non-`Null` member of the record,
the member's JSON text — everything else is silently dropped
(`filter_map`). -/
def hgetValues (record : JValue) (fieldArgs : List RedisFrame) : List (List Nat) :=
  fieldArgs.filterMap fun fr =>
    match fr with
    | .BulkString fieldName =>
      if (record.getField fieldName).isNull then none
      else some (record.getField fieldName).toJsonBytes
    | _ => none

/-- `handle_hget`. -/
def handleHget (db : DbAdapter) (c : CacheMap) (args : List RedisFrame) :
    Except RedisError (List Nat) × CacheMap × Nat :=
  if args.length < 2 then (.error (.WrongArity "HGET"), c, 0)
  else
    match args.headD .Null with
    | .BulkString key =>
      match splitColon key with
      | none => (.error (.Protocol "Expected entity:id format"), c, 0)
      | some (entity, id) =>
        match fetchRecord db c entity id [] with
        | (.ok record, c', n) =>
          (.ok (RedisFrame.toBytes
            (.Array ((hgetValues record (args.drop 1)).map fun v => .BulkString v))), c', n)
        | (.error (.EntityNotFound _), c', n) => (.ok (RedisFrame.toBytes .Null), c', n)
        | (.error e, c', n) => (.error (mapError e), c', n)
    | _ => (.error (.Protocol "Expected bulk string for key"), c, 0)

/-- `handle_command`: extract the command word from a non-empty array whose
head is a bulk string, upper-case it and dispatch. -/
def handleCommand (db : DbAdapter) (frame : RedisFrame) (c : CacheMap) :
    Except RedisError (List Nat) × CacheMap × Nat :=
  match frame with
  | .Array (first :: rest) =>
    match first with
    | .BulkString cmd =>
      let cmdU := cmd.map upperByte
      if cmdU = strBytes "PING" then
        (.ok (RedisFrame.toBytes (.SimpleString (strBytes "PONG"))), c, 0)
      else if cmdU = strBytes "SET" then (handleSet rest, c, 0)
      else if cmdU = strBytes "GET" then handleGet db c rest
      else if cmdU = strBytes "HGET" then handleHget db c rest
      else (.error (.UnknownCommand (bytesStr cmdU)), c, 0)
    | _ => (.error (.Protocol "Expected bulk string for command"), c, 0)
  | _ => (.error (.Protocol "Expected array for command"), c, 0)

/-! ## The connection loop (`Server::process_client` in `src/server.rs`)

One iteration of the outer `loop` = one socket read.  The inner
`while processed < command_buffer.len()` performs exactly one parse attempt
per read: every branch ends in `break` (on success the whole buffer is
cleared because, as the source comment admits, the number of consumed bytes
is unknown).  Socket writes become the returned response list. -/

/-- `format!("ERR {}", e)` wrapped in an `Error` frame, as written by the
server for both handler errors and parse errors. -/
def errReplyBytes (e : RedisError) : List Nat :=
  RedisFrame.toBytes (.Error (strBytes ("ERR " ++ e.display)))

/-- `e.to_string().contains(needle)`. -/
def errContains (e : RedisError) (needle : String) : Bool :=
  decide (needle.data <:+: e.display.data)

/-- One socket read of `chunk` bytes: append to the buffer, make one parse
attempt, emit responses, and apply the 10 KiB overflow guard.  The handler
is state-threaded (`σ` instantiates to the storage service's cache). -/
def serverStep {σ : Type} (handle : RedisFrame → σ → Except RedisError (List Nat) × σ)
    (st : σ) (buffer chunk : List Nat) : σ × List Nat × List (List Nat) :=
  let buf := buffer ++ chunk
  let step :=
    if buf.length = 0 then (st, buf, ([] : List (List Nat)))
    else
      match parse buf with
      | .ok frame =>
        let (resp, st') := handle frame st
        let bytes := match resp with
          | .ok bs => bs
          | .error e => errReplyBytes e
        (st', [], [bytes])
      | .error e =>
        if errContains e "Unexpected end of data" || errContains e "Empty data" then
          (st, buf, [])
        else (st, [], [errReplyBytes e])
  match step with
  | (st1, buf1, out1) =>
    if buf1.length > 10240 then
      (st1, [], out1 ++ [RedisFrame.toBytes (.Error (strBytes "ERR Command too large"))])
    else (st1, buf1, out1)

/-- The whole connection loop over a list of socket reads, collecting every
response written, in order. -/
def serverRun {σ : Type} (handle : RedisFrame → σ → Except RedisError (List Nat) × σ)
    (st : σ) (buffer : List Nat) : List (List Nat) → σ × List Nat × List (List Nat)
  | [] => (st, buffer, [])
  | chunk :: rest =>
    match serverStep handle st buffer chunk with
    | (st1, buf1, out1) =>
      match serverRun handle st1 buf1 rest with
      | (st2, buf2, out2) => (st2, buf2, out1 ++ out2)

/-- The handler actually installed by `process_client`: `handle_command`
against the storage service (the db-call counter is internal). -/
def commandHandler (db : DbAdapter) : RedisFrame → CacheMap → Except RedisError (List Nat) × CacheMap :=
  fun frame c =>
    match handleCommand db frame c with
    | (resp, c', _) => (resp, c')

/-! ## The Moka-based cache adapter (`src/storage/moka_cache.rs`)

`EntityData` (a `HashMap<String, String>` of field names to stringified
values) is an association list.  The Moka cache itself is a key→entry map
whose TTL behaviour is part of the store: an entry inserted at time `t`
with time-to-live `ttl` is visible to `get` only while `now < t + ttl`. -/

/-- `EntityData`: field name → stringified value. -/
abbrev EntityData := List (List Nat × List Nat)

/-- A Moka cache store: `(entity, id)` → `(data, expires_at)`. -/
abbrev MokaStore := List ((List Nat × List Nat) × (EntityData × Nat))

/-- `self.cache.get(&key)`: the entry, provided its TTL has not elapsed. -/
def mokaLookup (store : MokaStore) (key : List Nat × List Nat) (now : Nat) :
    Option EntityData :=
  match store.lookup key with
  | some (d, expiresAt) => if now < expiresAt then some d else none
  | none => none

/-- `MokaBasedCache::get_fields`. -/
def mokaGetFields (store : MokaStore) (entity id : List Nat)
    (fields : List (List Nat)) (now : Nat) : Except StorageError EntityData :=
  match mokaLookup store (entity, id) now with
  | some entry =>
    if fields = [] then .ok entry
    else .ok (fields.filterMap fun f => (entry.lookup f).map fun v => (f, v))
  | none => .ok []

/-! ## The hand-rolled cache (`src/storage/cache.rs`)

`Cache` holds `data : HashMap<String, HashMap<String, CacheEntry>>` (here
flattened to composite keys) and `lru_queue : VecDeque<(String, String)>`.
`Instant::now()` is the explicit `now` argument of every operation. -/

/-- `CacheEntry` of `cache.rs`. -/
structure CacheEntry where
  data : EntityData
  created_at : Nat
  expires_at : Nat
  deriving DecidableEq, Repr

/-- `CacheConfig` (`config.rs`): capacity and TTL. -/
structure CacheConfig where
  max_entries : Nat
  ttl_seconds : Nat
  deriving DecidableEq, Repr

/-- The state of `Cache`: entry map plus LRU queue (front = oldest). -/
structure HandCache where
  data : List ((List Nat × List Nat) × CacheEntry)
  lru_queue : List (List Nat × List Nat)
  deriving DecidableEq, Repr

/-- First entry with the given key. -/
def lookupEntry (l : List ((List Nat × List Nat) × CacheEntry))
    (key : List Nat × List Nat) : Option CacheEntry :=
  (l.find? fun p => p.1 == key).map fun p => p.2

/-- Removal of the first occurrence of a key from the LRU queue
(`lru_queue.remove(pos)` at the first matching position). -/
def eraseKey (q : List (List Nat × List Nat)) (k : List Nat × List Nat) :
    List (List Nat × List Nat) :=
  q.eraseP fun x => x == k

/-- The `while lru_queue.len() > max_entries` overflow loop of
`evict_entries`: pop the front of the queue and remove that key from the
entry map, until the queue is within capacity. -/
def popLoop (maxEntries : Nat) (data : List ((List Nat × List Nat) × CacheEntry)) :
    List (List Nat × List Nat) → List ((List Nat × List Nat) × CacheEntry) × List (List Nat × List Nat)
  | [] => (data, [])
  | k :: rest =>
    if rest.length + 1 > maxEntries then
      popLoop maxEntries (data.eraseP fun p => p.1 == k) rest
    else (data, k :: rest)

/-- `Cache::evict_entries`: drop expired entries (from map and queue), then
pop oldest queue entries while over capacity. -/
def evictEntries (cfg : CacheConfig) (c : HandCache) (now : Nat) : HandCache :=
  let expiredKeys := (c.data.filter fun p => decide (p.2.expires_at ≤ now)).map fun p => p.1
  let data1 := c.data.filter fun p => !decide (p.2.expires_at ≤ now)
  let queue1 := expiredKeys.foldl (fun q k => eraseKey q k) c.lru_queue
  match popLoop cfg.max_entries data1 queue1 with
  | (data2, queue2) => { data := data2, lru_queue := queue2 }

/-- `HashMap::insert` on `EntityData` (replace in place or append). -/
def edInsert (m : EntityData) (k v : List Nat) : EntityData :=
  if m.any fun p => p.1 == k then m.map fun p => if p.1 == k then (k, v) else p
  else m ++ [(k, v)]

/-- `Cache::get_fields`.  Returns the fields and the state left by the
initial `evict_entries` call. -/
def hcGetFields (cfg : CacheConfig) (c : HandCache) (entity id : List Nat)
    (fields : List (List Nat)) (now : Nat) : EntityData × HandCache :=
  let c1 := evictEntries cfg c now
  match lookupEntry c1.data (entity, id) with
  | none => ([], c1)
  | some entry =>
    if entry.expires_at ≤ now then ([], c1)
    else if fields = [] then (entry.data, c1)
    else (fields.filterMap fun f => (entry.data.lookup f).map fun v => (f, v), c1)

/-- `Cache::set_fields`: evict, then create or update the entry (merging
the given fields and resetting `expires_at` to `now + ttl_seconds`), and
move/append the key to the back of the LRU queue. -/
def hcSetFields (cfg : CacheConfig) (c : HandCache) (entity id : List Nat)
    (d : EntityData) (now : Nat) : HandCache :=
  let c1 := evictEntries cfg c now
  let key := (entity, id)
  let expiresAt := now + cfg.ttl_seconds
  let newEntry :=
    match lookupEntry c1.data key with
    | some old =>
      { data := d.foldl (fun m kv => edInsert m kv.1 kv.2) old.data
        created_at := old.created_at
        expires_at := expiresAt }
    | none =>
      { data := d.foldl (fun m kv => edInsert m kv.1 kv.2) []
        created_at := now
        expires_at := expiresAt }
  let isNew := (lookupEntry c1.data key).isNone
  let data' :=
    if c1.data.any fun p => p.1 == key then
      c1.data.map fun p => if p.1 == key then (key, newEntry) else p
    else c1.data ++ [(key, newEntry)]
  let queue' :=
    if isNew then c1.lru_queue ++ [key]
    else if c1.lru_queue.contains key then eraseKey c1.lru_queue key ++ [key]
    else c1.lru_queue ++ [key]
  { data := data', lru_queue := queue' }

/-! ## Derived definitions used by the theorems below -/

/-- The digit-accumulator value of the loop in `readNum`. -/
def digitsVal (acc : Nat) (l : List Nat) : Nat :=
  l.foldl (fun a b => a * 10 + (b - 48)) acc

/-- A frame is `Flat` when it is not an array and its line-oriented payload
contains no CR byte. -/
def Flat : RedisFrame → Prop
  | .SimpleString s => 13 ∉ s
  | .Error s => 13 ∉ s
  | .Integer _ => True
  | .BulkString _ => True
  | .Array _ => False
  | .Null => True

/-- The reference run of the command handler alone over a list of frames:
the final handler state and the response bytes written for each frame, in
order (handler errors rendered exactly as the server renders them). -/
def handlerOutputs {σ : Type} (handle : RedisFrame → σ → Except RedisError (List Nat) × σ)
    (st : σ) : List RedisFrame → σ × List (List Nat)
  | [] => (st, [])
  | f :: fs =>
    let r := handle f st
    let bytes := match r.1 with
      | .ok bs => bs
      | .error e => errReplyBytes e
    let rest := handlerOutputs handle r.2 fs
    (rest.1, bytes :: rest.2)

/-- The bytes of an array header followed by the encodings of the first `k`
elements only: the buffered prefix after a read that stops at an element
boundary. -/
def arrayPrefix (fs : List RedisFrame) (k : Nat) : List Nat :=
  42 :: (natDigits fs.length ++ 13 :: 10 :: RedisFrame.toBytesList (fs.take k))

/-- The multiset of entry keys. -/
def keysM (l : List ((List Nat × List Nat) × CacheEntry)) : Multiset (List Nat × List Nat) :=
  (l.map fun p => p.1 : List (List Nat × List Nat))

/-- The invariant of `Cache`: every entry key is in the LRU queue (with
multiplicity), and entry keys are unique. -/
def CacheInv (c : HandCache) : Prop :=
  keysM c.data ≤ (c.lru_queue : Multiset (List Nat × List Nat)) ∧
    (c.data.map fun p => p.1).Nodup

/-- A sequence of `set_fields` writes. -/
def applyWrites (cfg : CacheConfig) :
    HandCache → List ((List Nat × List Nat) × EntityData × Nat) → HandCache
  | c, [] => c
  | c, w :: ws => applyWrites cfg (hcSetFields cfg c w.1.1 w.1.2 w.2.1 w.2.2) ws

/-! ## Association-list helper lemmas -/

theorem lookup_cons_self {α β : Type} [BEq α] [LawfulBEq α] (k : α) (v : β)
    (t : List (α × β)) : List.lookup k ((k, v) :: t) = some v := by
  simp [List.lookup]

theorem lookup_cons_ne {α β : Type} [BEq α] [LawfulBEq α] (k : α) (p : α × β)
    (t : List (α × β)) (h : ¬ p.1 = k) : List.lookup k (p :: t) = List.lookup k t := by
  obtain ⟨a, v⟩ := p
  simp only at h
  have hk : (k == a) = false := by
    simp only [beq_eq_false_iff_ne]; exact fun e => h e.symm
  simp [List.lookup, hk]

theorem lookup_replace {α β : Type} [BEq α] [LawfulBEq α] [DecidableEq α] (l : List (α × β)) (k : α) (v : β)
    (h : (l.any fun p => p.1 = k) = true) :
    (l.map fun p => if p.1 = k then (k, v) else p).lookup k = some v := by
  induction l with
  | nil => simp at h
  | cons p t ih =>
    by_cases hp : p.1 = k
    · simp only [List.map_cons, if_pos hp]
      exact lookup_cons_self k v _
    · simp only [List.map_cons, if_neg hp]
      rw [lookup_cons_ne k p _ hp]
      apply ih
      simp only [List.any_cons, Bool.or_eq_true, decide_eq_true_eq] at h
      rcases h with h1 | h1
      · exact absurd h1 hp
      · simpa using h1

theorem lookup_of_not_any {α β : Type} [BEq α] [LawfulBEq α] [DecidableEq α] (l : List (α × β)) (k : α)
    (h : (l.any fun p => p.1 = k) = false) : l.lookup k = none := by
  induction l with
  | nil => rfl
  | cons p t ih =>
    simp only [List.any_cons, Bool.or_eq_false_iff, decide_eq_false_iff_not] at h
    rw [lookup_cons_ne k p _ h.1]
    apply ih
    simpa using h.2

theorem lookup_append_fresh {α β : Type} [BEq α] [LawfulBEq α] [DecidableEq α] (l : List (α × β)) (k : α)
    (v : β) (h : (l.any fun p => p.1 = k) = false) :
    (l ++ [(k, v)]).lookup k = some v := by
  induction l with
  | nil => exact lookup_cons_self k v []
  | cons p t ih =>
    simp only [List.any_cons, Bool.or_eq_false_iff, decide_eq_false_iff_not] at h
    rw [List.cons_append, lookup_cons_ne k p _ h.1]
    apply ih
    simpa using h.2

/-- `set_record` makes the record visible under its key. -/
theorem cacheSetRecord_lookup (c : CacheMap) (e i : List Nat) (v : JValue) :
    (cacheSetRecord c e i v).lookup (e, i) = some v := by
  unfold cacheSetRecord
  cases hb : c.any fun p => p.1 = (e, i)
  · simp only [hb, Bool.false_eq_true, if_false]
    exact lookup_append_fresh c (e, i) v hb
  · simp only [hb, if_true]
    exact lookup_replace c (e, i) v hb

/-! ## C2 — read-through -/

theorem read_through_single_adapter_call (db : DbAdapter) (c : CacheMap)
    (e i : List Nat) (r : JValue) (rs : List JValue)
    (hmiss : c.lookup (e, i) = none) (hdb : db e i = .ok (r :: rs)) :
    fetchRecord db c e i [] = (.ok r, cacheSetRecord c e i r, 1) ∧
    fetchRecord db (cacheSetRecord c e i r) e i [] = (.ok r, cacheSetRecord c e i r, 0) := by
  constructor
  · unfold fetchRecord cacheGetRecord
    rw [hmiss]
    simp only []
    unfold fetchFromDatabase
    rw [hdb]
    simp
  · unfold fetchRecord cacheGetRecord
    rw [cacheSetRecord_lookup]
    simp

/-- Witness for C2 at a concrete miss: empty cache, a one-record database. -/
theorem read_through_single_adapter_call_witness :
    fetchRecord (fun _ _ => .ok [.obj []]) [] [117] [49] [] =
      (.ok (.obj []), cacheSetRecord [] [117] [49] (.obj []), 1) ∧
    fetchRecord (fun _ _ => .ok [.obj []]) (cacheSetRecord [] [117] [49] (.obj [])) [117] [49] [] =
      (.ok (.obj []), cacheSetRecord [] [117] [49] (.obj []), 0) :=
  read_through_single_adapter_call (fun _ _ => .ok [.obj []]) [] [117] [49]
    (.obj []) [] rfl rfl

/-- C6: a `GET` whose storage fetch fails with `DatabaseError` (backend
unavailable) is answered with the RESP `Null` encoding `$-1\r\n` — the
handler returns `Ok` with a `Null` frame rather than surfacing a
`RedisError` (which the server would render as `-ERR …`). -/
theorem get_backend_error_maps_to_null :
    handleGet (fun _ _ => .error (.DatabaseError "connection refused")) []
      [.BulkString (strBytes "users:1")] =
      (.ok (RedisFrame.toBytes .Null), [], 1) ∧
    RedisFrame.toBytes .Null = [36, 45, 49, 13, 10] := by
  constructor
  · rfl
  · rfl

/-- C10: when `(entity, id)` is absent from (or expired in) the Moka cache,
`get_fields` returns `Ok` with the empty field map — and a live cached
record with no fields yields exactly the same result, so the two cases are
indistinguishable to the caller. -/
theorem moka_miss_is_empty_ok (store : MokaStore) (entity id : List Nat)
    (fields : List (List Nat)) (now t : Nat)
    (hmiss : mokaLookup store (entity, id) now = none) :
    mokaGetFields store entity id fields now = .ok [] ∧
    mokaGetFields [((entity, id), ([], now + t + 1))] entity id fields now = .ok [] := by
  constructor
  · unfold mokaGetFields
    rw [hmiss]
  · unfold mokaGetFields mokaLookup
    rw [lookup_cons_self]
    have hlt : now < now + t + 1 := by omega
    simp only [hlt, if_true]
    cases fields with
    | nil => simp
    | cons f fs => simp [List.lookup]

/-- Witness for C10 on the empty store. -/
theorem moka_miss_is_empty_ok_witness :
    mokaGetFields [] [101] [105] [[102]] 3 = .ok [] ∧
    mokaGetFields [(([101], [105]), ([], 3 + 0 + 1))] [101] [105] [[102]] 3 = .ok [] :=
  moka_miss_is_empty_ok [] [101] [105] [[102]] 3 0 rfl

/-! ## C1 — codec round-trip (failing input) -/

/-- C1 evaluated at the nested-array frame of the repository's own
`test_parse_nested_array`: `parse (to_bytes f)` succeeds but yields a
different frame — the array-element size scan computes only the header size
of a nonempty nested-array element, so the following element is re-parsed
from inside the nested array (`[.SimpleString "inner1"]` instead of
`.BulkString "outer"`).  `parse` also returns no consumed-byte count. -/
theorem codec_roundtrip_failure :
    parse (RedisFrame.toBytes (.Array [.Array [.SimpleString [105,110,110,101,114,49],
        .SimpleString [105,110,110,101,114,50]], .BulkString [111,117,116,101,114]])) =
      .ok (.Array [.Array [.SimpleString [105,110,110,101,114,49],
        .SimpleString [105,110,110,101,114,50]], .SimpleString [105,110,110,101,114,49]]) ∧
    (RedisFrame.Array [.Array [.SimpleString [105,110,110,101,114,49],
        .SimpleString [105,110,110,101,114,50]], .SimpleString [105,110,110,101,114,49]]) ≠
      .Array [.Array [.SimpleString [105,110,110,101,114,49],
        .SimpleString [105,110,110,101,114,50]], .BulkString [111,117,116,101,114]] := by
  constructor
  · simp [RedisFrame.toBytes, RedisFrame.toBytesList, natDigits, natDigitsGo, parse, parseVal,
      parseArray, parseElems, parseSimpleString, parseBulkString, readNum, elemSize, arrayScan,
      isWsByte, isMarker, isDigit, List.dropWhile]
  · simp

/-! ## C5 — HGET reply shape -/

/-- C5 as stated is false: for `HGET users:1 name missing` on a record
`{"name": "John Doe"}` the code replies with an array of length 1 (the
present field only), not an array of length 2 with a `Null` placeholder. -/
theorem hget_missing_field_counterexample :
    (handleHget (fun _ _ => .ok [.obj [([110,97,109,101], .str [74,111,104,110,32,68,111,101])]])
      [] [.BulkString [117,115,101,114,115,58,49], .BulkString [110,97,109,101],
          .BulkString [109,105,115,115,105,110,103]]).1 =
      .ok (RedisFrame.toBytes (.Array [.BulkString [34,74,111,104,110,32,68,111,101,34]])) ∧
    RedisFrame.toBytes (.Array [.BulkString [34,74,111,104,110,32,68,111,101,34]]) ≠
      RedisFrame.toBytes (.Array [.BulkString [34,74,111,104,110,32,68,111,101,34], .Null]) := by
  constructor
  · rfl
  · decide

/-- `hget_values` as a projection of the record. -/
theorem hgetValues_spec (record : JValue) (l : List RedisFrame) :
    hgetValues record l =
      (l.filterMap fun fr =>
        match fr with
        | .BulkString f =>
          if (record.getField f).isNull then none else some (record.getField f)
        | _ => none).map JValue.toJsonBytes := by
  induction l with
  | nil => rfl
  | cons fr rest ih =>
    cases fr <;> simp only [hgetValues, List.filterMap_cons] at ih ⊢ <;>
      try simpa using ih
    case BulkString f =>
      by_cases hn : (record.getField f).isNull <;> simp [hn, ih]

/-- C5 amended: every `HGET` on an existing record replies with an `Array`
(also when exactly one field is requested) holding, in request order, one
bulk string per requested field that is present and non-`Null` in the
record — absent fields are omitted, with no `Null` placeholders. -/
theorem hget_reply_shape (db : DbAdapter) (c : CacheMap) (key entity id : List Nat)
    (fieldArgs : List RedisFrame) (record : JValue) (c' : CacheMap) (n : Nat)
    (hk : splitColon key = some (entity, id))
    (hfetch : fetchRecord db c entity id [] = (.ok record, c', n))
    (hlen : 1 ≤ fieldArgs.length) :
    handleHget db c (.BulkString key :: fieldArgs) =
      (.ok (RedisFrame.toBytes (.Array ((fieldArgs.filterMap fun fr =>
        match fr with
        | .BulkString f =>
          if (record.getField f).isNull then none else some (record.getField f)
        | _ => none).map fun v => .BulkString v.toJsonBytes))), c', n) := by
  unfold handleHget
  have hl : ¬ (RedisFrame.BulkString key :: fieldArgs).length < 2 := by
    simp only [List.length_cons]; omega
  simp only [if_neg hl, List.headD_cons, hk, List.drop_succ_cons, List.drop_zero, hfetch]
  rw [hgetValues_spec]
  simp [List.map_map, Function.comp_def]

/-- Witness for C5 amended (single present field: the reply is still an
array, of length 1). -/
theorem hget_reply_shape_witness :
    handleHget (fun _ _ => .ok [.obj [([110,97,109,101], .str [74,111])]]) []
      [.BulkString [117,58,49], .BulkString [110,97,109,101]] =
      (.ok (RedisFrame.toBytes (.Array [.BulkString [34,74,111,34]])),
        cacheSetRecord [] [117] [49] (.obj [([110,97,109,101], .str [74,111])]), 1) := by
  have h := hget_reply_shape (fun _ _ => .ok [.obj [([110,97,109,101], .str [74,111])]]) []
    [117,58,49] [117] [49] [.BulkString [110,97,109,101]]
    (.obj [([110,97,109,101], .str [74,111])])
    (cacheSetRecord [] [117] [49] (.obj [([110,97,109,101], .str [74,111])])) 1
    rfl rfl (by decide)
  simpa using h
/-! ## C9 — SET is a no-op -/

theorem cacheGetRecord_some {c : CacheMap} {e i : List Nat} {v : JValue}
    (hl : c.lookup (e, i) = some v) : cacheGetRecord c e i = .ok v := by
  unfold cacheGetRecord; rw [hl]

theorem cacheGetRecord_none {c : CacheMap} {e i : List Nat}
    (hl : c.lookup (e, i) = none) :
    cacheGetRecord c e i = .error (.RecordNotFoundInCache "record not found in cache") := by
  unfold cacheGetRecord; rw [hl]

theorem fetchRecord_hit {db : DbAdapter} {c : CacheMap} {e i : List Nat} {v : JValue}
    (hl : c.lookup (e, i) = some v) : fetchRecord db c e i [] = (.ok v, c, 0) := by
  unfold fetchRecord; rw [cacheGetRecord_some hl]; simp

theorem fetchRecord_miss {db : DbAdapter} {c : CacheMap} {e i : List Nat}
    (hl : c.lookup (e, i) = none) (fields : List (List Nat)) :
    fetchRecord db c e i fields = fetchFromDatabase db c e i fields := by
  unfold fetchRecord; rw [cacheGetRecord_none hl]

theorem fetchFromDatabase_cons {db : DbAdapter} {c : CacheMap} {e i : List Nat}
    {r : JValue} {rest : List JValue} (hdb : db e i = .ok (r :: rest)) :
    fetchFromDatabase db c e i [] = (.ok r, cacheSetRecord c e i r, 1) := by
  unfold fetchFromDatabase; rw [hdb]; simp

theorem fetchFromDatabase_nil {db : DbAdapter} {c : CacheMap} {e i : List Nat}
    (hdb : db e i = .ok []) :
    fetchFromDatabase db c e i [] =
      (.error (.RecordNotInDatabase "record not found in database"), c, 1) := by
  unfold fetchFromDatabase; rw [hdb]

theorem fetchFromDatabase_err {db : DbAdapter} {c : CacheMap} {e i : List Nat}
    {er : StorageError} (hdb : db e i = .error er) :
    fetchFromDatabase db c e i [] = (.error er, c, 1) := by
  unfold fetchFromDatabase; rw [hdb]

/-- Repeating a `fetch_record` call from the state it left behind returns
the same result and leaves the cache unchanged (the database adapter is a
pure function). -/
theorem fetchRecord_stable (db : DbAdapter) (c : CacheMap) (e i : List Nat)
    {res : Except StorageError JValue} {c' : CacheMap} {n : Nat}
    (h : fetchRecord db c e i [] = (res, c', n)) :
    ∃ n2, fetchRecord db c' e i [] = (res, c', n2) := by
  cases hl : c.lookup (e, i) with
  | some vv =>
    rw [fetchRecord_hit hl] at h
    simp only [Prod.mk.injEq] at h
    obtain ⟨rfl, rfl, _⟩ := h
    exact ⟨0, fetchRecord_hit hl⟩
  | none =>
    rw [fetchRecord_miss hl] at h
    cases hdb : db e i with
    | ok records =>
      cases records with
      | nil =>
        rw [fetchFromDatabase_nil hdb] at h
        simp only [Prod.mk.injEq] at h
        obtain ⟨rfl, rfl, _⟩ := h
        exact ⟨1, by rw [fetchRecord_miss hl, fetchFromDatabase_nil hdb]⟩
      | cons r rest =>
        rw [fetchFromDatabase_cons hdb] at h
        simp only [Prod.mk.injEq] at h
        obtain ⟨rfl, rfl, _⟩ := h
        exact ⟨0, fetchRecord_hit (cacheSetRecord_lookup c e i r)⟩
    | error er =>
      rw [fetchFromDatabase_err hdb] at h
      simp only [Prod.mk.injEq] at h
      obtain ⟨rfl, rfl, _⟩ := h
      exact ⟨1, by rw [fetchRecord_miss hl, fetchFromDatabase_err hdb]⟩

/-- Repeating a `GET` from the cache state the first `GET` left behind
yields the same reply and the same cache state. -/
theorem handleGet_stable (db : DbAdapter) (c : CacheMap) (args : List RedisFrame)
    {r1 : Except RedisError (List Nat)} {c1 : CacheMap} {n1 : Nat}
    (h : handleGet db c args = (r1, c1, n1)) :
    ∃ n2, handleGet db c1 args = (r1, c1, n2) := by
  cases args with
  | nil =>
    rw [show handleGet db c [] = (.error (.WrongArity "GET"), c, 0) from rfl] at h
    simp only [Prod.mk.injEq] at h
    obtain ⟨rfl, rfl, _⟩ := h
    exact ⟨0, rfl⟩
  | cons a rest =>
    cases rest with
    | cons b rest2 =>
      unfold handleGet at h ⊢
      rw [if_pos (by simp)] at h ⊢
      simp only [Prod.mk.injEq] at h
      obtain ⟨rfl, rfl, _⟩ := h
      exact ⟨0, rfl⟩
    | nil =>
      unfold handleGet at h ⊢
      rw [if_neg (by simp)] at h ⊢
      dsimp only [List.headD] at h ⊢
      cases a with
      | BulkString key =>
        dsimp only at h ⊢
        cases hs : splitColon key with
        | none =>
          rw [hs] at h
          dsimp only at h
          simp only [Prod.mk.injEq] at h
          obtain ⟨rfl, rfl, _⟩ := h
          exact ⟨0, rfl⟩
        | some pr =>
          obtain ⟨e, i⟩ := pr
          rw [hs] at h
          dsimp only at h
          rcases hf : fetchRecord db c e i [] with ⟨res, cc, nn⟩
          rw [hf] at h
          obtain ⟨n2, hf2⟩ := fetchRecord_stable db c e i hf
          cases res with
          | ok record =>
            dsimp only at h
            simp only [Prod.mk.injEq] at h
            obtain ⟨rfl, rfl, _⟩ := h
            exact ⟨n2, by dsimp only; rw [hf2]⟩
          | error err =>
            cases err <;>
              (dsimp only at h
               simp only [Prod.mk.injEq] at h
               obtain ⟨rfl, rfl, _⟩ := h
               exact ⟨n2, by dsimp only; rw [hf2]⟩)
      | SimpleString s =>
        dsimp only at h ⊢
        simp only [Prod.mk.injEq] at h
        obtain ⟨rfl, rfl, _⟩ := h
        exact ⟨0, rfl⟩
      | Error s =>
        dsimp only at h ⊢
        simp only [Prod.mk.injEq] at h
        obtain ⟨rfl, rfl, _⟩ := h
        exact ⟨0, rfl⟩
      | Integer j =>
        dsimp only at h ⊢
        simp only [Prod.mk.injEq] at h
        obtain ⟨rfl, rfl, _⟩ := h
        exact ⟨0, rfl⟩
      | Array elems =>
        dsimp only at h ⊢
        simp only [Prod.mk.injEq] at h
        obtain ⟨rfl, rfl, _⟩ := h
        exact ⟨0, rfl⟩
      | Null =>
        dsimp only at h ⊢
        simp only [Prod.mk.injEq] at h
        obtain ⟨rfl, rfl, _⟩ := h
        exact ⟨0, rfl⟩

/-- C9: a well-formed `SET` (key and value both bulk strings) is replied
with `+OK\r\n`, the dispatcher leaves the cache untouched, and a `GET`
repeated across the `SET` returns the same reply and state as before it. -/
theorem set_is_noop (db : DbAdapter) (c0 : CacheMap) (getArgs setArgs : List RedisFrame)
    (k v : List Nat)
    (h0 : setArgs.headD .Null = .BulkString k)
    (h1 : (setArgs.drop 1).headD .Null = .BulkString v)
    (h2 : 2 ≤ setArgs.length) :
    handleCommand db (.Array (.BulkString [83, 69, 84] :: setArgs)) c0 =
      (.ok (RedisFrame.toBytes (.SimpleString [79, 75])), c0, 0) ∧
    ∀ r1 c1 n1, handleGet db c0 getArgs = (r1, c1, n1) →
      ∃ n2, handleGet db c1 getArgs = (r1, c1, n2) := by
  constructor
  · have hset : handleSet setArgs = .ok (RedisFrame.toBytes (.SimpleString (strBytes "OK"))) := by
      unfold handleSet
      rw [if_neg (by omega), h0, h1]
    unfold handleCommand
    simp only []
    rw [hset]
    rfl
  · intro r1 c1 n1 h
    exact handleGet_stable db c0 getArgs h

/-- Witness for C9: a concrete `SET k v` next to a concrete `GET u:1`
against a one-record database. -/
theorem set_is_noop_witness :
    handleCommand (fun _ _ => .ok [.obj []]) (.Array (.BulkString [83, 69, 84] ::
        [.BulkString [107], .BulkString [118]])) [] =
      (.ok (RedisFrame.toBytes (.SimpleString [79, 75])), [], 0) ∧
    ∀ r1 c1 n1,
      handleGet (fun _ _ => .ok [.obj []]) [] [.BulkString [117, 58, 49]] = (r1, c1, n1) →
      ∃ n2, handleGet (fun _ _ => .ok [.obj []]) c1 [.BulkString [117, 58, 49]] = (r1, c1, n2) :=
  set_is_noop (fun _ _ => .ok [.obj []]) [] [.BulkString [117, 58, 49]]
    [.BulkString [107], .BulkString [118]] [107] [118] rfl rfl (by decide)
theorem popLoop_data_sublist (maxE : Nat)
    (data : List ((List Nat × List Nat) × CacheEntry)) (q : List (List Nat × List Nat)) :
    (popLoop maxE data q).1.Sublist data := by
  induction q generalizing data with
  | nil => simp [popLoop]
  | cons k rest ih =>
    unfold popLoop
    by_cases hc : rest.length + 1 > maxE
    · simp only [if_pos hc]
      exact (ih _).trans (List.eraseP_sublist _)
    · simp only [if_neg hc]
      exact List.Sublist.refl _

theorem evictEntries_data_sublist (cfg : CacheConfig) (c : HandCache) (now : Nat) :
    (evictEntries cfg c now).data.Sublist c.data := by
  unfold evictEntries
  rcases hp : popLoop cfg.max_entries
      (c.data.filter fun p => !decide (p.2.expires_at ≤ now))
      (((c.data.filter fun p => decide (p.2.expires_at ≤ now)).map fun p => p.1).foldl
        (fun q k => eraseKey q k) c.lru_queue) with ⟨d2, q2⟩
  have h1 := popLoop_data_sublist cfg.max_entries
    (c.data.filter fun p => !decide (p.2.expires_at ≤ now))
    (((c.data.filter fun p => decide (p.2.expires_at ≤ now)).map fun p => p.1).foldl
      (fun q k => eraseKey q k) c.lru_queue)
  rw [hp] at h1
  simp only [hp]
  exact h1.trans (List.filter_sublist _)

theorem find?_eq_of_mem_nodup {β : Type}
    {l : List ((List Nat × List Nat) × β)} (nd : (l.map fun p => p.1).Nodup)
    {p : (List Nat × List Nat) × β} (hp : p ∈ l) :
    l.find? (fun q => q.1 == p.1) = some p := by
  induction l with
  | nil => simp at hp
  | cons q t ih =>
    rcases List.mem_cons.mp hp with rfl | hmem
    · simp [List.find?]
    · simp only [List.map_cons, List.nodup_cons] at nd
      have hq : ¬ q.1 = p.1 := by
        intro e
        exact nd.1 (e ▸ List.mem_map_of_mem (fun r => r.1) hmem)
      have hq' : (q.1 == p.1) = false := by simpa using hq
      simp only [List.find?, hq']
      exact ih nd.2 hmem

/-- Looking a key up in a sublist of a key-nodup entry list gives `none` or
the same entry the full list gives. -/
theorem lookupEntry_sublist {l' l : List ((List Nat × List Nat) × CacheEntry)}
    (hs : l'.Sublist l) (nd : (l.map fun p => p.1).Nodup)
    (k : List Nat × List Nat) :
    lookupEntry l' k = none ∨ lookupEntry l' k = lookupEntry l k := by
  cases hf : l'.find? fun q => q.1 == k with
  | none => left; simp [lookupEntry, hf]
  | some p =>
    right
    have hmem : p ∈ l := hs.subset (List.mem_of_find?_eq_some hf)
    have hkey := List.find?_some hf
    have hkey' : p.1 = k := by simpa using hkey
    have hfull : l.find? (fun q => q.1 == k) = some p := by
      rw [← hkey']
      exact find?_eq_of_mem_nodup nd hmem
    simp [lookupEntry, hf, hfull]

theorem findEntry_replace (l : List ((List Nat × List Nat) × CacheEntry))
    (k : List Nat × List Nat) (E : CacheEntry)
    (h : (l.any fun p => p.1 == k) = true) :
    lookupEntry (l.map fun p => if p.1 == k then (k, E) else p) k = some E := by
  induction l with
  | nil => simp at h
  | cons p t ih =>
    by_cases hp : p.1 = k
    · have hb : (p.1 == k) = true := by simpa using hp
      rw [List.map_cons, if_pos hb]
      unfold lookupEntry
      rw [List.find?_cons_of_pos _ (by simp)]
      rfl
    · have hb : (p.1 == k) = false := by simpa using hp
      rw [List.map_cons, if_neg (by simp [hb])]
      unfold lookupEntry
      rw [List.find?_cons_of_neg _ (by simp [hp])]
      have ht : (t.any fun p => p.1 == k) = true := by
        simpa [hb] using h
      have := ih ht
      unfold lookupEntry at this
      exact this

theorem findEntry_append_fresh (l : List ((List Nat × List Nat) × CacheEntry))
    (k : List Nat × List Nat) (E : CacheEntry)
    (h : (l.any fun p => p.1 == k) = false) :
    lookupEntry (l ++ [(k, E)]) k = some E := by
  induction l with
  | nil =>
    unfold lookupEntry
    rw [List.nil_append, List.find?_cons_of_pos _ (by simp)]
    rfl
  | cons p t ih =>
    simp only [List.any_cons, Bool.or_eq_false_iff] at h
    have hp : ¬ p.1 = k := by
      have := h.1; simpa using this
    rw [List.cons_append]
    unfold lookupEntry
    rw [List.find?_cons_of_neg _ (by simp [hp])]
    have := ih h.2
    unfold lookupEntry at this
    exact this
/-- After `set_fields`, the written key maps to an entry whose
`expires_at` is `now + ttl_seconds`. -/
theorem hcSetFields_lookup (cfg : CacheConfig) (c : HandCache) (e i : List Nat)
    (d : EntityData) (now : Nat) :
    ∃ entry, lookupEntry (hcSetFields cfg c e i d now).data (e, i) = some entry ∧
      entry.expires_at = now + cfg.ttl_seconds := by
  unfold hcSetFields
  dsimp only
  cases hle : lookupEntry (evictEntries cfg c now).data (e, i) with
  | some old =>
    dsimp only
    cases hb : (evictEntries cfg c now).data.any fun p => p.1 == (e, i) with
    | true =>
      rw [if_pos rfl]
      exact ⟨_, findEntry_replace _ _ _ hb, rfl⟩
    | false =>
      rw [if_neg (by simp)]
      exact ⟨_, findEntry_append_fresh _ _ _ hb, rfl⟩
  | none =>
    dsimp only
    cases hb : (evictEntries cfg c now).data.any fun p => p.1 == (e, i) with
    | true =>
      rw [if_pos rfl]
      exact ⟨_, findEntry_replace _ _ _ hb, rfl⟩
    | false =>
      rw [if_neg (by simp)]
      exact ⟨_, findEntry_append_fresh _ _ _ hb, rfl⟩

theorem keys_replace (l : List ((List Nat × List Nat) × CacheEntry))
    (k : List Nat × List Nat) (E : CacheEntry) :
    ((l.map fun p => if p.1 == k then (k, E) else p).map fun p => p.1) =
      l.map fun p => p.1 := by
  induction l with
  | nil => rfl
  | cons p t ih =>
    by_cases hp : p.1 = k
    · have hb : (p.1 == k) = true := by simpa using hp
      simp only [List.map_cons, if_pos hb, ih, List.cons.injEq, and_true]
      exact hp.symm
    · have hb : (p.1 == k) = false := by simpa using hp
      have hcond : ¬ ((p.1 == k) = true) := by rw [hb]; simp
      simp only [List.map_cons, if_neg hcond, ih]

theorem any_eq_false_not_mem_keys (l : List ((List Nat × List Nat) × CacheEntry))
    (k : List Nat × List Nat) (h : (l.any fun p => p.1 == k) = false) :
    k ∉ l.map fun p => p.1 := by
  intro hk
  rcases List.mem_map.mp hk with ⟨p, hp, hpk⟩
  have := List.any_eq_false.mp h p hp
  simp [hpk] at this

/-- `set_fields` preserves key-uniqueness of the entry map. -/
theorem hcSetFields_nodup (cfg : CacheConfig) (c : HandCache) (e i : List Nat)
    (d : EntityData) (now : Nat) (nd : (c.data.map fun p => p.1).Nodup) :
    ((hcSetFields cfg c e i d now).data.map fun p => p.1).Nodup := by
  have nd1 : ((evictEntries cfg c now).data.map fun p => p.1).Nodup :=
    ((evictEntries_data_sublist cfg c now).map fun p => p.1).nodup nd
  unfold hcSetFields
  dsimp only
  cases hb : (evictEntries cfg c now).data.any fun p => p.1 == (e, i) with
  | true =>
    cases hle : lookupEntry (evictEntries cfg c now).data (e, i) <;>
      (dsimp only
       rw [if_pos rfl, keys_replace]
       exact nd1)
  | false =>
    have hnot := any_eq_false_not_mem_keys _ _ hb
    cases hle : lookupEntry (evictEntries cfg c now).data (e, i) <;>
      (dsimp only
       rw [if_neg (by simp)]
       simp only [List.map_append, List.map_cons, List.map_nil]
       exact List.Nodup.append nd1 (List.nodup_singleton _)
         (by simpa [List.disjoint_singleton] using hnot))

/-- C7: an entry written at time `t` is not returned as a hit by any read
at a time `t' ≥ t + ttl_seconds` — `get_fields` yields the empty field
map, exactly as for an absent key. -/
theorem ttl_expired_entry_not_hit (cfg : CacheConfig) (c : HandCache)
    (e i : List Nat) (d : EntityData) (fields : List (List Nat)) (t t' : Nat)
    (nd : (c.data.map fun p => p.1).Nodup) (ht : t + cfg.ttl_seconds ≤ t') :
    (hcGetFields cfg (hcSetFields cfg c e i d t) e i fields t').1 = [] := by
  obtain ⟨E, hlook, hexp⟩ := hcSetFields_lookup cfg c e i d t
  have hnd : ((hcSetFields cfg c e i d t).data.map fun p => p.1).Nodup :=
    hcSetFields_nodup cfg c e i d t nd
  unfold hcGetFields
  dsimp only
  have hsub := evictEntries_data_sublist cfg (hcSetFields cfg c e i d t) t'
  rcases lookupEntry_sublist hsub hnd (e, i) with hnone | hsame
  · rw [hnone]
  · rw [hsame, hlook]
    have hle : E.expires_at ≤ t' := by omega
    dsimp only
    rw [if_pos hle]

/-- Witness for C7: a concrete entry written at time 0 with TTL 5, read at
time 5. -/
theorem ttl_expired_entry_not_hit_witness :
    0 + (5 : Nat) ≤ 5 ∧
    (hcGetFields ⟨10, 5⟩ (hcSetFields ⟨10, 5⟩ ⟨[], []⟩ [101] [105] [([102], [118])] 0)
      [101] [105] [] 5).1 = [] :=
  ⟨by omega,
   ttl_expired_entry_not_hit ⟨10, 5⟩ ⟨[], []⟩ [101] [105] [([102], [118])] [] 0 5
     (by simp) (by decide)⟩
/-! ## C8 — capacity bound -/

/-- C8 as stated is false: with `max_entries = 1`, two writes of distinct
keys leave the cache with 2 live entries — `set_fields` evicts before
inserting, so right after a write the cache may hold `max_entries + 1`
entries. -/
theorem capacity_bound_counterexample :
    (hcSetFields ⟨1, 100⟩ (hcSetFields ⟨1, 100⟩ ⟨[], []⟩ [97] [49] [([102], [118])] 0)
      [97] [50] [([102], [118])] 0).data.length = 2 ∧
    (⟨1, 100⟩ : CacheConfig).max_entries = 1 := by
  constructor
  · rfl
  · rfl

theorem keysM_eraseP (l : List ((List Nat × List Nat) × CacheEntry))
    (k : List Nat × List Nat) :
    keysM (l.eraseP fun p => p.1 == k) = (keysM l).erase k := by
  induction l with
  | nil => simp [keysM]
  | cons p t ih =>
    by_cases hp : p.1 = k
    · rw [List.eraseP_cons_of_pos (by simpa using hp)]
      unfold keysM
      rw [List.map_cons, ← Multiset.cons_coe, hp, Multiset.erase_cons_head]
    · rw [List.eraseP_cons_of_neg (by simpa using hp)]
      unfold keysM at ih ⊢
      rw [List.map_cons, List.map_cons, ← Multiset.cons_coe, ← Multiset.cons_coe,
        Multiset.erase_cons_tail, ih]
      exact hp

theorem coe_eraseKey (q : List (List Nat × List Nat)) (k : List Nat × List Nat) :
    ((eraseKey q k : List (List Nat × List Nat)) : Multiset (List Nat × List Nat)) =
      (q : Multiset (List Nat × List Nat)).erase k := by
  induction q with
  | nil => simp [eraseKey]
  | cons b t ih =>
    by_cases hb : b = k
    · rw [eraseKey, List.eraseP_cons_of_pos (by simpa using hb), ← Multiset.cons_coe, hb,
        Multiset.erase_cons_head]
    · rw [eraseKey, List.eraseP_cons_of_neg (by simpa using hb), ← Multiset.cons_coe,
        ← Multiset.cons_coe, Multiset.erase_cons_tail]
      · rw [← eraseKey, ih]
      · exact hb

theorem popLoop_queue_le (maxE : Nat)
    (data : List ((List Nat × List Nat) × CacheEntry)) (q : List (List Nat × List Nat)) :
    (popLoop maxE data q).2.length ≤ maxE := by
  induction q generalizing data with
  | nil => simp [popLoop]
  | cons k rest ih =>
    unfold popLoop
    by_cases hc : rest.length + 1 > maxE
    · simp only [if_pos hc]
      exact ih _
    · simp only [if_neg hc, List.length_cons]
      omega

theorem popLoop_keys_le (maxE : Nat)
    (data : List ((List Nat × List Nat) × CacheEntry)) (q : List (List Nat × List Nat))
    (h : keysM data ≤ (q : Multiset (List Nat × List Nat))) :
    keysM (popLoop maxE data q).1 ≤
      ((popLoop maxE data q).2 : Multiset (List Nat × List Nat)) := by
  induction q generalizing data with
  | nil => simpa [popLoop] using h
  | cons k rest ih =>
    unfold popLoop
    by_cases hc : rest.length + 1 > maxE
    · simp only [if_pos hc]
      apply ih
      rw [keysM_eraseP]
      rw [← Multiset.cons_coe] at h
      exact Multiset.erase_le_iff_le_cons.mpr h
    · simp only [if_neg hc]
      exact h

theorem foldl_eraseKey_ge (ks q : List (List Nat × List Nat)) :
    (q : Multiset (List Nat × List Nat)) - (ks : Multiset (List Nat × List Nat)) ≤
      ((ks.foldl (fun q k => eraseKey q k) q : List (List Nat × List Nat)) :
        Multiset (List Nat × List Nat)) := by
  induction ks generalizing q with
  | nil => simp
  | cons k rest ih =>
    simp only [List.foldl_cons]
    have h1 : (q : Multiset (List Nat × List Nat)) -
        ((k :: rest : List (List Nat × List Nat)) : Multiset (List Nat × List Nat)) =
        ((eraseKey q k : List (List Nat × List Nat)) : Multiset (List Nat × List Nat)) -
          (rest : Multiset (List Nat × List Nat)) := by
      rw [← Multiset.cons_coe, Multiset.sub_cons, coe_eraseKey]
    rw [h1]
    exact ih (eraseKey q k)
theorem keysM_append_single (l : List ((List Nat × List Nat) × CacheEntry))
    (k : List Nat × List Nat) (E : CacheEntry) :
    keysM (l ++ [(k, E)]) = keysM l + {k} := by
  unfold keysM
  rw [List.map_append, ← Multiset.coe_add]
  rfl

theorem keysM_replace (l : List ((List Nat × List Nat) × CacheEntry))
    (k : List Nat × List Nat) (E : CacheEntry) :
    keysM (l.map fun p => if p.1 == k then (k, E) else p) = keysM l := by
  unfold keysM
  rw [keys_replace]

theorem keysM_card (l : List ((List Nat × List Nat) × CacheEntry)) :
    (keysM l).card = l.length := by
  unfold keysM
  rw [Multiset.coe_card, List.length_map]

/-- `evict_entries` preserves the cache invariant. -/
theorem evictEntries_inv (cfg : CacheConfig) (c : HandCache) (now : Nat)
    (h : CacheInv c) : CacheInv (evictEntries cfg c now) := by
  obtain ⟨hle, hnd⟩ := h
  have hperm :
      (((c.data.filter fun p => decide (p.2.expires_at ≤ now)).map fun p => p.1) ++
        ((c.data.filter fun p => !decide (p.2.expires_at ≤ now)).map fun p => p.1)).Perm
        (c.data.map fun p => p.1) := by
    rw [← List.map_append]
    exact (List.filter_append_perm _ c.data).map _
  have hsum :
      ((((c.data.filter fun p => decide (p.2.expires_at ≤ now)).map fun p => p.1) :
          List (List Nat × List Nat)) : Multiset (List Nat × List Nat)) +
        keysM (c.data.filter fun p => !decide (p.2.expires_at ≤ now)) = keysM c.data := by
    unfold keysM
    rw [Multiset.coe_add]
    exact Multiset.coe_eq_coe.mpr hperm
  have hpre : keysM (c.data.filter fun p => !decide (p.2.expires_at ≤ now)) ≤
      ((((c.data.filter fun p => decide (p.2.expires_at ≤ now)).map fun p => p.1).foldl
          (fun q k => eraseKey q k) c.lru_queue : List (List Nat × List Nat)) :
        Multiset (List Nat × List Nat)) := by
    have h1 : keysM (c.data.filter fun p => !decide (p.2.expires_at ≤ now)) =
        keysM c.data -
          ((((c.data.filter fun p => decide (p.2.expires_at ≤ now)).map fun p => p.1) :
            List (List Nat × List Nat)) : Multiset (List Nat × List Nat)) := by
      refine eq_tsub_of_add_eq ?_
      rw [add_comm]
      exact hsum
    rw [h1]
    refine le_trans (tsub_le_tsub_right hle _) ?_
    exact foldl_eraseKey_ge _ _
  unfold evictEntries
  dsimp only
  constructor
  · exact popLoop_keys_le _ _ _ hpre
  · exact (((popLoop_data_sublist _ _ _).trans (List.filter_sublist _)).map
      fun p => p.1).nodup hnd

theorem evictEntries_queue_le (cfg : CacheConfig) (c : HandCache) (now : Nat) :
    (evictEntries cfg c now).lru_queue.length ≤ cfg.max_entries := by
  unfold evictEntries
  dsimp only
  exact popLoop_queue_le _ _ _
/-- `set_fields` preserves the cache invariant. -/
theorem hcSetFields_inv (cfg : CacheConfig) (c : HandCache) (e i : List Nat)
    (d : EntityData) (now : Nat) (h : CacheInv c) :
    CacheInv (hcSetFields cfg c e i d now) := by
  obtain ⟨hle2, hnd2⟩ := evictEntries_inv cfg c now h
  unfold hcSetFields
  dsimp only
  cases hb : (evictEntries cfg c now).data.any fun p => p.1 == (e, i) with
  | false =>
    have hleN : lookupEntry (evictEntries cfg c now).data (e, i) = none := by
      unfold lookupEntry
      rw [List.find?_eq_none.mpr]
      · rfl
      · intro x hx
        have := List.any_eq_false.mp hb x hx
        simpa using this
    rw [hleN]
    dsimp only [Option.isNone]
    rw [if_pos rfl, if_neg (show ¬ (false = true) by simp)]
    constructor
    · rw [keysM_append_single]
      have hq : (((evictEntries cfg c now).lru_queue ++ [(e, i)] :
          List (List Nat × List Nat)) : Multiset (List Nat × List Nat)) =
          ((evictEntries cfg c now).lru_queue : Multiset (List Nat × List Nat)) + {(e, i)} := by
        rw [← Multiset.coe_add]
        rfl
      rw [hq]
      exact add_le_add_right hle2 _
    · rw [List.map_append]
      refine List.Nodup.append hnd2 (List.nodup_singleton _) ?_
      simpa [List.disjoint_singleton] using any_eq_false_not_mem_keys _ _ hb
  | true =>
    obtain ⟨pr, hfind⟩ : ∃ pr,
        (evictEntries cfg c now).data.find? (fun p => p.1 == (e, i)) = some pr := by
      apply Option.isSome_iff_exists.mp
      rw [List.find?_isSome]
      exact List.any_eq_true.mp hb
    have hleS : lookupEntry (evictEntries cfg c now).data (e, i) = some pr.2 := by
      unfold lookupEntry
      rw [hfind]
      rfl
    rw [hleS]
    dsimp only [Option.isNone]
    rw [if_pos rfl, if_neg (show ¬ (false = true) by simp)]
    cases hq : (evictEntries cfg c now).lru_queue.contains (e, i) with
    | true =>
      rw [if_pos rfl]
      constructor
      · rw [keysM_replace]
        have hmem : (e, i) ∈ ((evictEntries cfg c now).lru_queue :
            Multiset (List Nat × List Nat)) := by
          simpa using hq
        have hqq : ((eraseKey (evictEntries cfg c now).lru_queue (e, i) ++ [(e, i)] :
            List (List Nat × List Nat)) : Multiset (List Nat × List Nat)) =
            ((evictEntries cfg c now).lru_queue : Multiset (List Nat × List Nat)) := by
          rw [← Multiset.coe_add, coe_eraseKey, Multiset.coe_singleton, add_comm,
            Multiset.singleton_add, Multiset.cons_erase hmem]
        rw [hqq]
        exact hle2
      · rw [keys_replace]
        exact hnd2
    | false =>
      rw [if_neg (show ¬ (false = true) by simp)]
      constructor
      · rw [keysM_replace]
        refine le_trans hle2 ?_
        have hq2 : (((evictEntries cfg c now).lru_queue ++ [(e, i)] :
            List (List Nat × List Nat)) : Multiset (List Nat × List Nat)) =
            ((evictEntries cfg c now).lru_queue : Multiset (List Nat × List Nat)) + {(e, i)} := by
          rw [← Multiset.coe_add]
          rfl
        rw [hq2]
        exact le_add_right le_rfl
      · rw [keys_replace]
        exact hnd2
theorem hcSetFields_queue_len (cfg : CacheConfig) (c : HandCache) (e i : List Nat)
    (d : EntityData) (now : Nat) :
    (hcSetFields cfg c e i d now).lru_queue.length ≤
      (evictEntries cfg c now).lru_queue.length + 1 := by
  unfold hcSetFields
  dsimp only
  split
  · simp
  · split
    · rw [List.length_append, List.length_singleton]
      have : (eraseKey (evictEntries cfg c now).lru_queue (e, i)).length ≤
          (evictEntries cfg c now).lru_queue.length :=
        (List.eraseP_sublist _).length_le
      omega
    · simp

/-- Right after any single `set_fields` on an invariant-respecting state,
the cache holds at most `max_entries + 1` entries. -/
theorem hcSetFields_bound (cfg : CacheConfig) (c : HandCache) (e i : List Nat)
    (d : EntityData) (now : Nat) (h : CacheInv c) :
    (hcSetFields cfg c e i d now).data.length ≤ cfg.max_entries + 1 := by
  obtain ⟨hles, _⟩ := hcSetFields_inv cfg c e i d now h
  have h1 : (hcSetFields cfg c e i d now).data.length =
      (keysM (hcSetFields cfg c e i d now).data).card := (keysM_card _).symm
  have h2 := Multiset.card_le_card hles
  rw [Multiset.coe_card] at h2
  have h3 := hcSetFields_queue_len cfg c e i d now
  have h4 := evictEntries_queue_le cfg c now
  omega

theorem applyWrites_bound (cfg : CacheConfig)
    (ws : List ((List Nat × List Nat) × EntityData × Nat)) :
    ∀ c, CacheInv c → c.data.length ≤ cfg.max_entries + 1 →
      (applyWrites cfg c ws).data.length ≤ cfg.max_entries + 1 := by
  induction ws with
  | nil => intro c _ hlen; exact hlen
  | cons w rest ih =>
    intro c hInv hlen
    exact ih _ (hcSetFields_inv _ _ _ _ _ _ hInv) (hcSetFields_bound _ _ _ _ _ _ hInv)

/-- C8 amended: starting from the empty cache, after any sequence of
`set_fields` writes the cache holds at most `max_entries + 1` entries
(`set_fields` evicts down to `max_entries` before inserting, so the bound
`max_entries` itself is restored only at the start of the next operation). -/
theorem capacity_bound_max_plus_one (cfg : CacheConfig)
    (ws : List ((List Nat × List Nat) × EntityData × Nat)) :
    (applyWrites cfg ⟨[], []⟩ ws).data.length ≤ cfg.max_entries + 1 := by
  refine applyWrites_bound cfg ws ⟨[], []⟩ ?_ (by simp)
  constructor
  · simp [keysM]
  · simp
/-! ## Encoder/decoder interaction lemmas

These describe how the decoder consumes an encoder-produced prefix: the
digit loop inverts `natDigits`, and each non-array frame encoding parses
back to its frame while occupying exactly `elemSize` bytes. -/

theorem readNum_digits (ctx : String) (l : List Nat)
    (hl : ∀ b ∈ l, 48 ≤ b ∧ b ≤ 57) (r : List Nat) (acc : Nat) :
    readNum ctx (l ++ r) acc = readNum ctx r (digitsVal acc l) := by
  induction l generalizing acc with
  | nil => rfl
  | cons b t ih =>
    have hb := hl b (List.mem_cons_self b t)
    have h13 : ¬ b = 13 := by omega
    have hd : isDigit b = true := by simp [isDigit]; omega
    rw [List.cons_append, readNum, if_neg h13, if_pos hd]
    rw [ih (fun x hx => hl x (List.mem_cons_of_mem b hx))]
    rfl

theorem digitsVal_natDigits (n : Nat) :
    ∀ acc, digitsVal acc (natDigits n) = acc * 10 ^ (natDigits n).length + n := by
  induction n using Nat.strong_induction_on with
  | _ n ih =>
    intro acc
    rw [natDigits_eq]
    by_cases h : n < 10
    · simp only [h, if_true]
      simp [digitsVal]
    · simp only [h, if_false]
      unfold digitsVal
      rw [List.foldl_append]
      have hrec := ih (n / 10) (Nat.div_lt_self (by omega) (by omega)) acc
      unfold digitsVal at hrec
      rw [hrec]
      simp only [List.foldl_cons, List.foldl_nil, List.length_append,
        List.length_singleton]
      rw [Nat.pow_succ]
      have hdm : 10 * (n / 10) + n % 10 = n := Nat.div_add_mod n 10
      have hmod : 48 + n % 10 - 48 = n % 10 := by omega
      rw [hmod]
      ring_nf
      omega

theorem readNum_natDigits (ctx : String) (n : Nat) (r : List Nat) :
    readNum ctx (natDigits n ++ 13 :: r) 0 = .ok (n, 13 :: r) := by
  rw [readNum_digits ctx (natDigits n) (natDigits_mem_digit n) (13 :: r) 0]
  have := digitsVal_natDigits n 0
  rw [this]
  simp [readNum]
theorem takeWhile_no13 (s : List Nat) (hs : 13 ∉ s) (r : List Nat) :
    ((s ++ 13 :: r).takeWhile fun b => b ≠ 13) = s := by
  induction s with
  | nil => simp [List.takeWhile]
  | cons b t ih =>
    have hb : ¬ b = 13 := fun e => hs (e ▸ List.mem_cons_self b t)
    rw [List.cons_append, List.takeWhile_cons_of_pos (by simpa using hb),
      ih (fun hm => hs (List.mem_cons_of_mem b hm))]

theorem toBytes_ne_nil (f : RedisFrame) : f.toBytes ≠ [] := by
  cases f <;> simp [RedisFrame.toBytes]

theorem parseSimpleString_encode (s : List Nat) (hs : 13 ∉ s) (tail : List Nat) :
    parseSimpleString ((RedisFrame.SimpleString s).toBytes ++ tail) =
      .ok (.SimpleString s) := by
  unfold parseSimpleString RedisFrame.toBytes
  have harr : (43 :: s ++ [13, 10]) ++ tail = 43 :: (s ++ 13 :: 10 :: tail) := by
    simp
  rw [harr]
  simp only [List.drop_succ_cons, List.drop_zero]
  rw [takeWhile_no13 s hs (10 :: tail)]
  rw [show s ++ 13 :: 10 :: tail = s ++ (13 :: 10 :: tail) from rfl, List.drop_left]

theorem parseErrorFrame_encode (s : List Nat) (hs : 13 ∉ s) (tail : List Nat) :
    parseErrorFrame ((RedisFrame.Error s).toBytes ++ tail) = .ok (.Error s) := by
  unfold parseErrorFrame RedisFrame.toBytes
  have harr : (45 :: s ++ [13, 10]) ++ tail = 45 :: (s ++ 13 :: 10 :: tail) := by
    simp
  rw [harr]
  simp only [List.drop_succ_cons, List.drop_zero]
  rw [takeWhile_no13 s hs (10 :: tail)]
  rw [show s ++ 13 :: 10 :: tail = s ++ (13 :: 10 :: tail) from rfl, List.drop_left]

theorem headD_natDigits_append_ne_45 (n : Nat) (r : List Nat) :
    ¬ (natDigits n ++ r).headD 0 = 45 := by
  cases hd : natDigits n with
  | nil => exact absurd hd (natDigits_ne_nil n)
  | cons b t =>
    have hmem : b ∈ natDigits n := hd ▸ List.mem_cons_self b t
    have := natDigits_mem_digit n b hmem
    simp only [List.cons_append, List.headD_cons]
    omega

theorem parseInteger_encode (i : Int) (tail : List Nat) :
    parseInteger ((RedisFrame.Integer i).toBytes ++ tail) = .ok (.Integer i) := by
  unfold parseInteger RedisFrame.toBytes intDigits
  by_cases hi : i < 0
  · simp only [hi, if_true]
    have harr : (58 :: (45 :: natDigits i.natAbs) ++ [13, 10]) ++ tail =
        58 :: 45 :: (natDigits i.natAbs ++ 13 :: 10 :: tail) := by simp
    rw [harr]
    simp only [List.drop_succ_cons, List.drop_zero, List.headD_cons, if_true]
    rw [readNum_natDigits]
    dsimp only
    congr 2
    omega
  · simp only [hi, if_false]
    have harr : (58 :: natDigits i.natAbs ++ [13, 10]) ++ tail =
        58 :: (natDigits i.natAbs ++ 13 :: 10 :: tail) := by simp
    rw [harr]
    simp only [List.drop_succ_cons, List.drop_zero]
    rw [if_neg (headD_natDigits_append_ne_45 i.natAbs _)]
    rw [readNum_natDigits]
    dsimp only
    rw [if_neg (headD_natDigits_append_ne_45 i.natAbs _)]
    congr 2
    omega
theorem handlerOutputs_length {σ : Type}
    (handle : RedisFrame → σ → Except RedisError (List Nat) × σ)
    (st : σ) (fs : List RedisFrame) :
    (handlerOutputs handle st fs).2.length = fs.length := by
  induction fs generalizing st with
  | nil => rfl
  | cons f fs ih =>
    simp only [handlerOutputs, List.length_cons, ih]

/-- One socket read holding exactly one valid encoded frame: the buffer
check passes, the parse succeeds, the handler runs and the buffer is
cleared. -/
theorem serverStep_aligned {σ : Type}
    (handle : RedisFrame → σ → Except RedisError (List Nat) × σ)
    (st : σ) (f : RedisFrame)
    (hpf : parse (RedisFrame.toBytes f) = .ok f) :
    serverStep handle st [] (RedisFrame.toBytes f) =
      ((handle f st).2, [],
        [match (handle f st).1 with | .ok bs => bs | .error e => errReplyBytes e]) := by
  have hne := toBytes_ne_nil f
  unfold serverStep
  simp only [List.nil_append]
  rw [if_neg (fun h => hne (List.length_eq_zero.mp h)), hpf]
  rfl

/-- The connection loop over frame-aligned reads agrees with the reference
handler run: final state, empty buffer, one response per frame in order. -/
theorem serverRun_aligned {σ : Type}
    (handle : RedisFrame → σ → Except RedisError (List Nat) × σ) :
    ∀ fs : List RedisFrame, (∀ f ∈ fs, parse (RedisFrame.toBytes f) = .ok f) →
    ∀ st : σ, serverRun handle st [] (fs.map RedisFrame.toBytes) =
      ((handlerOutputs handle st fs).1, [], (handlerOutputs handle st fs).2) := by
  intro fs
  induction fs with
  | nil => intro _ st; rfl
  | cons f fs ih =>
    intro hp st
    have hpf := hp f (List.mem_cons_self f fs)
    have hp' : ∀ g ∈ fs, parse (RedisFrame.toBytes g) = .ok g :=
      fun g hg => hp g (List.mem_cons_of_mem f hg)
    rw [List.map_cons]
    simp only [serverRun]
    rw [serverStep_aligned handle st f hpf]
    dsimp only
    rw [ih hp' ((handle f st).2)]
    simp only [handlerOutputs, List.singleton_append]

/-- C3 as stated is false: a single socket read containing two concatenated
valid `PING` request frames produces exactly one response (one `+PONG`
reply), because `process_client` makes one parse attempt per read and clears
the whole buffer on success, discarding the second frame. -/
theorem pipelining_counterexample :
    (serverRun (commandHandler fun _ _ => .ok [.obj []]) ([] : CacheMap) []
      [RedisFrame.toBytes (.Array [.BulkString [80, 73, 78, 71]]) ++
       RedisFrame.toBytes (.Array [.BulkString [80, 73, 78, 71]])]).2.2 =
      [RedisFrame.toBytes (.SimpleString [80, 79, 78, 71])] := by
  have hparse : parse (RedisFrame.toBytes (.Array [.BulkString [80, 73, 78, 71]]) ++
      RedisFrame.toBytes (.Array [.BulkString [80, 73, 78, 71]])) =
      .ok (.Array [.BulkString [80, 73, 78, 71]]) := by
    simp [RedisFrame.toBytes, RedisFrame.toBytesList, natDigits, natDigitsGo, parse, parseVal,
      parseArray, parseElems, parseBulkString, readNum, elemSize, isWsByte, isMarker, isDigit,
      List.dropWhile]
  simp only [serverRun, serverStep, List.nil_append]
  rw [hparse]
  rfl

/-- C3 amended: when reads are aligned with frame boundaries — one valid
request frame per socket read — the server produces exactly one response per
request, in request order (the handler's responses, so N frames yield N
responses). -/
theorem pipelining_one_frame_per_read {σ : Type}
    (handle : RedisFrame → σ → Except RedisError (List Nat) × σ)
    (st : σ) (fs : List RedisFrame)
    (hp : ∀ f ∈ fs, parse (RedisFrame.toBytes f) = .ok f) :
    (serverRun handle st [] (fs.map RedisFrame.toBytes)).2.2 =
      (handlerOutputs handle st fs).2 ∧
    (serverRun handle st [] (fs.map RedisFrame.toBytes)).2.2.length = fs.length := by
  constructor
  · rw [serverRun_aligned handle fs hp st]
  · rw [serverRun_aligned handle fs hp st]
    exact handlerOutputs_length handle st fs

/-- Witness for the amended C3: a single `PING` request frame in its own
read yields exactly the handler's one response. -/
theorem pipelining_one_frame_per_read_witness :
    (∀ f ∈ [RedisFrame.Array [.BulkString [80, 73, 78, 71]]],
      parse (RedisFrame.toBytes f) = .ok f) ∧
    ((serverRun (commandHandler fun _ _ => .ok [.obj []]) ([] : CacheMap) []
        ([RedisFrame.Array [.BulkString [80, 73, 78, 71]]].map RedisFrame.toBytes)).2.2 =
      (handlerOutputs (commandHandler fun _ _ => .ok [.obj []]) ([] : CacheMap)
        [RedisFrame.Array [.BulkString [80, 73, 78, 71]]]).2 ∧
     (serverRun (commandHandler fun _ _ => .ok [.obj []]) ([] : CacheMap) []
        ([RedisFrame.Array [.BulkString [80, 73, 78, 71]]].map RedisFrame.toBytes)).2.2.length =
       1) := by
  have hp : ∀ f ∈ [RedisFrame.Array [.BulkString [80, 73, 78, 71]]],
      parse (RedisFrame.toBytes f) = .ok f := by
    intro f hf
    simp only [List.mem_singleton] at hf
    subst hf
    simp [RedisFrame.toBytes, RedisFrame.toBytesList, natDigits, natDigitsGo, parse, parseVal,
      parseArray, parseElems, parseBulkString, readNum, elemSize, isWsByte, isMarker, isDigit,
      List.dropWhile]
  exact ⟨hp, pipelining_one_frame_per_read (commandHandler fun _ _ => .ok [.obj []]) [] _ hp⟩
theorem parseBulkString_encode (s : List Nat) (tail : List Nat) :
    parseBulkString ((RedisFrame.BulkString s).toBytes ++ tail) = .ok (.BulkString s) := by
  unfold parseBulkString RedisFrame.toBytes
  have harr : (36 :: natDigits s.length ++ [13, 10] ++ s ++ [13, 10]) ++ tail =
      36 :: (natDigits s.length ++ 13 :: 10 :: (s ++ 13 :: 10 :: tail)) := by simp
  rw [harr]
  simp only [List.drop_succ_cons, List.drop_zero]
  rw [if_neg (headD_natDigits_append_ne_45 s.length _)]
  rw [readNum_natDigits]
  dsimp only
  rw [if_neg (headD_natDigits_append_ne_45 s.length _)]
  rw [if_neg (show ¬ (s ++ 13 :: 10 :: tail).length < s.length + 2 by
    simp only [List.length_append, List.length_cons]; omega)]
  rw [if_pos (show (s ++ 13 :: 10 :: tail).getD s.length 0 = 13 ∧
      (s ++ 13 :: 10 :: tail).getD (s.length + 1) 0 = 10 from by
    constructor
    · rw [List.getD_append_right _ _ _ _ (le_refl s.length)]
      simp
    · rw [List.getD_append_right _ _ _ _ (by omega)]
      simp)]
  rw [List.take_left]

theorem parseBulkString_null (tail : List Nat) :
    parseBulkString (RedisFrame.Null.toBytes ++ tail) = .ok .Null := by
  simp [parseBulkString, RedisFrame.toBytes, readNum, isDigit]

/-- For every non-array frame the `element_size` recomputation equals the
length of the frame's own encoding. -/
theorem elemSize_flat (f : RedisFrame) (hf : Flat f) (suffix : List Nat) (r : Nat) :
    elemSize f suffix r = .ok f.toBytes.length := by
  cases f with
  | SimpleString s =>
    simp only [elemSize, RedisFrame.toBytes, List.length_cons, List.length_append,
      List.length_nil, Except.ok.injEq]
    omega
  | Error s =>
    simp only [elemSize, RedisFrame.toBytes, List.length_cons, List.length_append,
      List.length_nil, Except.ok.injEq]
    omega
  | Integer i =>
    simp only [elemSize, RedisFrame.toBytes, List.length_cons, List.length_append,
      List.length_nil, Except.ok.injEq]
    omega
  | BulkString s =>
    simp only [elemSize, RedisFrame.toBytes, List.length_cons, List.length_append,
      List.length_nil, Except.ok.injEq]
    omega
  | Array elems => exact hf.elim
  | Null => rfl

/-- Parsing the encoding of a flat frame (with any trailing bytes) succeeds
and returns the frame. -/
theorem parseVal_encode (f : RedisFrame) (hf : Flat f) (tail : List Nat) :
    parseVal (f.toBytes ++ tail) = .ok f := by
  cases f with
  | SimpleString s =>
    have h : RedisFrame.toBytes (.SimpleString s) ++ tail =
        43 :: (s ++ 13 :: 10 :: tail) := by simp [RedisFrame.toBytes]
    rw [h, show parseVal (43 :: (s ++ 13 :: 10 :: tail)) =
      parseSimpleString (43 :: (s ++ 13 :: 10 :: tail)) from by simp [parseVal], ← h]
    exact parseSimpleString_encode s hf tail
  | Error s =>
    have h : RedisFrame.toBytes (.Error s) ++ tail =
        45 :: (s ++ 13 :: 10 :: tail) := by simp [RedisFrame.toBytes]
    rw [h, show parseVal (45 :: (s ++ 13 :: 10 :: tail)) =
      parseErrorFrame (45 :: (s ++ 13 :: 10 :: tail)) from by simp [parseVal], ← h]
    exact parseErrorFrame_encode s hf tail
  | Integer i =>
    have h : RedisFrame.toBytes (.Integer i) ++ tail =
        58 :: (intDigits i ++ [13, 10] ++ tail) := by simp [RedisFrame.toBytes]
    rw [h, show parseVal (58 :: (intDigits i ++ [13, 10] ++ tail)) =
      parseInteger (58 :: (intDigits i ++ [13, 10] ++ tail)) from by simp [parseVal], ← h]
    exact parseInteger_encode i tail
  | BulkString s =>
    have h : RedisFrame.toBytes (.BulkString s) ++ tail =
        36 :: (natDigits s.length ++ [13, 10] ++ s ++ [13, 10] ++ tail) := by
      simp [RedisFrame.toBytes]
    rw [h, show parseVal (36 :: (natDigits s.length ++ [13, 10] ++ s ++ [13, 10] ++ tail)) =
      parseBulkString (36 :: (natDigits s.length ++ [13, 10] ++ s ++ [13, 10] ++ tail)) from by
        simp [parseVal], ← h]
    exact parseBulkString_encode s tail
  | Array elems => exact hf.elim
  | Null =>
    have h : RedisFrame.toBytes .Null ++ tail = 36 :: ([45, 49, 13, 10] ++ tail) := by
      simp [RedisFrame.toBytes]
    rw [h, show parseVal (36 :: ([45, 49, 13, 10] ++ tail)) =
      parseBulkString (36 :: ([45, 49, 13, 10] ++ tail)) from by simp [parseVal], ← h]
    exact parseBulkString_null tail

theorem toBytesList_append (a b : List RedisFrame) :
    RedisFrame.toBytesList (a ++ b) =
      RedisFrame.toBytesList a ++ RedisFrame.toBytesList b := by
  induction a with
  | nil => rfl
  | cons f fs ih => simp [RedisFrame.toBytesList, ih]
/-- The element loop on exactly the encodings of `gs` flat frames, expecting
exactly `gs.length` elements, returns `gs`. -/
theorem parseElems_encode_full :
    ∀ gs : List RedisFrame, (∀ f ∈ gs, Flat f) → ∀ idx : Nat,
      parseElems (RedisFrame.toBytesList gs) gs.length idx = .ok gs := by
  intro gs
  induction gs with
  | nil =>
    intro _ idx
    simp [RedisFrame.toBytesList, parseElems]
  | cons g gs ih =>
    intro h idx
    have hg : Flat g := h g (List.mem_cons_self g gs)
    have hgs : ∀ f ∈ gs, Flat f := fun f hf => h f (List.mem_cons_of_mem g hf)
    cases hb : RedisFrame.toBytes g with
    | nil => exact absurd hb (toBytes_ne_nil g)
    | cons b bs =>
      have hsuf : RedisFrame.toBytesList (g :: gs) =
          b :: (bs ++ RedisFrame.toBytesList gs) := by
        simp [RedisFrame.toBytesList, hb]
      have hcons : b :: (bs ++ RedisFrame.toBytesList gs) =
          RedisFrame.toBytes g ++ RedisFrame.toBytesList gs := by
        rw [hb]; rfl
      rw [hsuf, List.length_cons]
      simp only [parseElems]
      rw [hcons, parseVal_encode g hg (RedisFrame.toBytesList gs)]
      dsimp only
      split
      · rename_i e heq
        rw [elemSize_flat g hg] at heq
        cases heq
      · rename_i size heq
        rw [elemSize_flat g hg] at heq
        injection heq with hsize
        subst hsize
        rw [List.drop_left, ih hgs (idx + 1)]

/-- The element loop on the encodings of `gs` flat frames, expecting more
than `gs.length` elements, fails with the incomplete-data error naming the
first absent element. -/
theorem parseElems_encode_short :
    ∀ gs : List RedisFrame, (∀ f ∈ gs, Flat f) → ∀ remaining idx : Nat,
      gs.length < remaining →
      parseElems (RedisFrame.toBytesList gs) remaining idx =
        .error (.Protocol
          s!"Unexpected end of data while parsing array element {idx + gs.length}") := by
  intro gs
  induction gs with
  | nil =>
    intro _ remaining idx hr
    cases remaining with
    | zero => omega
    | succ r => simp [RedisFrame.toBytesList, parseElems]
  | cons g gs ih =>
    intro h remaining idx hr
    have hg : Flat g := h g (List.mem_cons_self g gs)
    have hgs : ∀ f ∈ gs, Flat f := fun f hf => h f (List.mem_cons_of_mem g hf)
    cases remaining with
    | zero => exact absurd hr (by omega)
    | succ r =>
      have hr' : gs.length < r := by
        simp only [List.length_cons] at hr
        omega
      cases hb : RedisFrame.toBytes g with
      | nil => exact absurd hb (toBytes_ne_nil g)
      | cons b bs =>
        have hsuf : RedisFrame.toBytesList (g :: gs) =
            b :: (bs ++ RedisFrame.toBytesList gs) := by
          simp [RedisFrame.toBytesList, hb]
        have hcons : b :: (bs ++ RedisFrame.toBytesList gs) =
            RedisFrame.toBytes g ++ RedisFrame.toBytesList gs := by
          rw [hb]; rfl
        rw [hsuf]
        simp only [parseElems]
        rw [hcons, parseVal_encode g hg (RedisFrame.toBytesList gs)]
        dsimp only
        split
        · rename_i e heq
          rw [elemSize_flat g hg] at heq
          cases heq
        · rename_i size heq
          rw [elemSize_flat g hg] at heq
          injection heq with hsize
          subst hsize
          rw [List.drop_left, ih hgs r (idx + 1) hr']
          have harith : idx + 1 + gs.length = idx + (g :: gs).length := by
            simp only [List.length_cons]
            omega
          rw [harith]

/-- Parsing the full encoding of an array of flat frames succeeds. -/
theorem parse_array_encode (fs : List RedisFrame) (h : ∀ f ∈ fs, Flat f) :
    parse (RedisFrame.toBytes (.Array fs)) = .ok (.Array fs) := by
  have htb : RedisFrame.toBytes (.Array fs) =
      42 :: (natDigits fs.length ++ 13 :: 10 :: RedisFrame.toBytesList fs) := by
    simp [RedisFrame.toBytes]
  rw [htb]
  unfold parse
  simp only [List.dropWhile_cons, isWsByte]
  norm_num
  rw [show parseVal (42 :: (natDigits fs.length ++ 13 :: 10 :: RedisFrame.toBytesList fs)) =
    parseArray (42 :: (natDigits fs.length ++ 13 :: 10 :: RedisFrame.toBytesList fs)) from by
      simp [parseVal]]
  simp only [parseArray, List.drop_succ_cons, List.drop_zero]
  split
  · rename_i e heq
    rw [readNum_natDigits] at heq
    cases heq
  · rename_i length rest heq
    rw [readNum_natDigits] at heq
    injection heq with hpair
    injection hpair with h1 h2
    subst h1
    subst h2
    dsimp only
    rw [parseElems_encode_full fs h 0]

theorem arrayPrefix_append (fs : List RedisFrame) (k : Nat) :
    arrayPrefix fs k ++ RedisFrame.toBytesList (fs.drop k) =
      RedisFrame.toBytes (.Array fs) := by
  have hsplit : RedisFrame.toBytesList (fs.take k) ++ RedisFrame.toBytesList (fs.drop k) =
      RedisFrame.toBytesList fs := by
    rw [← toBytesList_append, List.take_append_drop]
  simp [arrayPrefix, RedisFrame.toBytes, ← hsplit]

/-- Parsing the truncated array reports the incomplete-data error for
element `k`. -/
theorem parse_arrayPrefix (fs : List RedisFrame) (k : Nat)
    (h : ∀ f ∈ fs, Flat f) (hk : k < fs.length) :
    parse (arrayPrefix fs k) =
      .error (.Protocol s!"Unexpected end of data while parsing array element {k}") := by
  unfold arrayPrefix parse
  simp only [List.dropWhile_cons, isWsByte]
  norm_num
  rw [show parseVal (42 :: (natDigits fs.length ++ 13 :: 10 ::
      RedisFrame.toBytesList (fs.take k))) =
    parseArray (42 :: (natDigits fs.length ++ 13 :: 10 ::
      RedisFrame.toBytesList (fs.take k))) from by simp [parseVal]]
  simp only [parseArray, List.drop_succ_cons, List.drop_zero]
  split
  · rename_i e heq
    rw [readNum_natDigits] at heq
    cases heq
  · rename_i length rest heq
    rw [readNum_natDigits] at heq
    injection heq with hpair
    injection hpair with h1 h2
    subst h1
    subst h2
    dsimp only
    have htk : ∀ f ∈ fs.take k, Flat f := fun f hf => h f (List.mem_of_mem_take hf)
    have hlen : (fs.take k).length < fs.length := by
      rw [List.length_take]
      omega
    rw [parseElems_encode_short (fs.take k) htk fs.length 0 hlen]
    have hlt : 0 + (fs.take k).length = k := by
      rw [List.length_take]
      omega
    rw [hlt]

/-- The incomplete-data parse error is one the connection loop recognizes
as "wait for more bytes". -/
theorem errContains_unexpected (k : Nat) :
    errContains (.Protocol s!"Unexpected end of data while parsing array element {k}")
      "Unexpected end of data" = true := by
  simp only [errContains, RedisError.display, decide_eq_true_eq]
  have hmsg : s!"Unexpected end of data while parsing array element {k}" =
      "Unexpected end of data while parsing array element " ++ toString k ++ "" := rfl
  rw [hmsg, String.append_empty]
  have hpre : "Unexpected end of data".data <+:
      ("Unexpected end of data while parsing array element " ++ toString k).data := by
    rw [String.data_append]
    exact (show "Unexpected end of data".data <+:
        "Unexpected end of data while parsing array element ".data by decide).trans
      (List.prefix_append _ _)
  obtain ⟨t, ht⟩ := hpre
  refine ⟨"Protocol error: ".data, t, ?_⟩
  rw [String.data_append, ← ht]
  simp [List.append_assoc]
/-- C4 as stated is false: `+OK` (the strict prefix of the valid frame
`+OK\x0d\x0a` missing its CRLF) decodes to a hard protocol error, not an
incomplete indication, and the connection loop discards the buffered prefix
and writes an error reply instead of waiting for the rest. -/
theorem incremental_decode_counterexample :
    [43, 79, 75] ++ [13, 10] = RedisFrame.toBytes (.SimpleString [79, 75]) ∧
    parse (RedisFrame.toBytes (.SimpleString [79, 75])) = .ok (.SimpleString [79, 75]) ∧
    parse [43, 79, 75] = .error (.Protocol "Expected CRLF after simple string") ∧
    serverStep (fun (_ : RedisFrame) (s : Unit) => (.ok [], s)) () [] [43, 79, 75] =
      ((), [], [errReplyBytes (.Protocol "Expected CRLF after simple string")]) := by
  have hfull : parse (RedisFrame.toBytes (.SimpleString [79, 75])) =
      .ok (.SimpleString [79, 75]) := by
    simp [RedisFrame.toBytes, parse, parseVal, parseSimpleString, isWsByte,
      List.dropWhile, List.takeWhile]
  have herr : parse [43, 79, 75] = .error (.Protocol "Expected CRLF after simple string") := by
    simp [parse, parseVal, parseSimpleString, isWsByte, List.dropWhile, List.takeWhile]
  refine ⟨rfl, hfull, herr, ?_⟩
  unfold serverStep
  simp only [List.nil_append]
  rw [herr]
  rfl

/-- C4 amended: the decoder reports incomplete data (and the connection loop
buffers rather than discards) only when the split point falls at an array
element boundary: for an array of flat frames cut after the header and the
first `k` element encodings, the parse error is the recognized
"Unexpected end of data" one, the server keeps the whole prefix buffered and
writes nothing, and once the remaining element encodings arrive the
reassembled buffer parses to the full array and one response is written. -/
theorem incremental_decode_element_boundary {σ : Type}
    (handle : RedisFrame → σ → Except RedisError (List Nat) × σ) (st : σ)
    (fs : List RedisFrame) (k : Nat)
    (hflat : ∀ f ∈ fs, Flat f) (hk : k < fs.length)
    (hsize : (arrayPrefix fs k).length ≤ 10240) :
    arrayPrefix fs k ++ RedisFrame.toBytesList (fs.drop k) =
      RedisFrame.toBytes (.Array fs) ∧
    parse (arrayPrefix fs k) =
      .error (.Protocol s!"Unexpected end of data while parsing array element {k}") ∧
    serverStep handle st [] (arrayPrefix fs k) = (st, arrayPrefix fs k, []) ∧
    parse (RedisFrame.toBytes (.Array fs)) = .ok (.Array fs) ∧
    serverStep handle st (arrayPrefix fs k) (RedisFrame.toBytesList (fs.drop k)) =
      ((handle (.Array fs) st).2, [],
        [match (handle (.Array fs) st).1 with
          | .ok bs => bs
          | .error e => errReplyBytes e]) := by
  have hglue := arrayPrefix_append fs k
  have herr := parse_arrayPrefix fs k hflat hk
  have hok := parse_array_encode fs hflat
  refine ⟨hglue, herr, ?_, hok, ?_⟩
  · unfold serverStep
    simp only [List.nil_append]
    rw [if_neg (show ¬ (arrayPrefix fs k).length = 0 by simp [arrayPrefix])]
    rw [herr]
    dsimp only
    rw [errContains_unexpected k, Bool.true_or, if_pos rfl]
    dsimp only
    rw [if_neg (show ¬ (arrayPrefix fs k).length > 10240 by omega)]
  · unfold serverStep
    dsimp only
    rw [hglue]
    rw [if_neg (fun hl => toBytes_ne_nil (.Array fs) (List.length_eq_zero.mp hl))]
    rw [hok]
    rfl

/-- Witness for the amended C4: the two-element array `*2\x0d\x0a+A\x0d\x0a+B\x0d\x0a`
cut right after its first element. -/
theorem incremental_decode_element_boundary_witness :
    1 < [RedisFrame.SimpleString [65], RedisFrame.SimpleString [66]].length ∧
    (arrayPrefix [RedisFrame.SimpleString [65], RedisFrame.SimpleString [66]] 1 ++
        RedisFrame.toBytesList ([RedisFrame.SimpleString [65],
          RedisFrame.SimpleString [66]].drop 1) =
      RedisFrame.toBytes (.Array [RedisFrame.SimpleString [65],
        RedisFrame.SimpleString [66]]) ∧
    parse (arrayPrefix [RedisFrame.SimpleString [65], RedisFrame.SimpleString [66]] 1) =
      .error (.Protocol s!"Unexpected end of data while parsing array element {1}") ∧
    serverStep (fun (_ : RedisFrame) (s : Unit) => (.ok [43, 13, 10], s)) () []
        (arrayPrefix [RedisFrame.SimpleString [65], RedisFrame.SimpleString [66]] 1) =
      ((), arrayPrefix [RedisFrame.SimpleString [65], RedisFrame.SimpleString [66]] 1, []) ∧
    parse (RedisFrame.toBytes (.Array [RedisFrame.SimpleString [65],
        RedisFrame.SimpleString [66]])) =
      .ok (.Array [RedisFrame.SimpleString [65], RedisFrame.SimpleString [66]]) ∧
    serverStep (fun (_ : RedisFrame) (s : Unit) => (.ok [43, 13, 10], s)) ()
        (arrayPrefix [RedisFrame.SimpleString [65], RedisFrame.SimpleString [66]] 1)
        (RedisFrame.toBytesList ([RedisFrame.SimpleString [65],
          RedisFrame.SimpleString [66]].drop 1)) =
      ((), [], [[43, 13, 10]])) := by
  have hflat : ∀ f ∈ [RedisFrame.SimpleString [65], RedisFrame.SimpleString [66]], Flat f := by
    intro f hf
    simp only [List.mem_cons, List.not_mem_nil, or_false] at hf
    rcases hf with rfl | rfl <;> simp [Flat]
  exact ⟨by decide,
    incremental_decode_element_boundary (fun (_ : RedisFrame) (s : Unit) => (.ok [43, 13, 10], s))
      () [RedisFrame.SimpleString [65], RedisFrame.SimpleString [66]] 1 hflat
      (by decide) (by decide)⟩

end PrismCache
